import Mathlib

/-!
# Verification of `aws-stream-consumer-core`

A shallow embedding, in Lean 4, of the parts of the `aws-stream-consumer-core`
repository that the frozen claims C1..C10 talk about, together with theorems
settling each claim.

Modules embedded (JavaScript source → Lean):
* `stream-consumer.js`: `calculateTimeoutMs`, the process/finalise phase timeout
  computations, `validateTaskDefinitions`, the validation front of
  `processStreamEvent`, `executeProcessOneTasks` chain advancement, and the
  error-priority decision cascade at the end of `finaliseBatch`.
* `batch.js`: `Batch.isFullyFinalised`, `Batch.isMessageIncomplete`,
  `Batch.moveMessageToRejected`, `Batch.allMessages`.
* the persisting module: `saveBatchStateToDynamoDB` / `insertBatchState` /
  `updateBatchState` conditional-write protocol, the `loadBatchStateFromDynamoDB`
  get request, and `restoreMessageAndRejectedMessageStates`.
* the sequencing module: `compareSameKeyMessages` and `sequenceMessages`.

JavaScript numbers are modelled as `ℚ`/`ℤ`/`Nat` with explicit rounding where the
source rounds; fallible code returns `Except`; the JS `Map`s are association lists
with set-overwrites-and-last-set-wins semantics; `WeakMap` state maps are
association lists keyed by the tracked item.
-/

namespace StreamConsumerCore

/-! ## Phase timeouts (claim C7)

`stream-consumer.js` lines 995-998 (`calculateTimeoutMs`), 515-517 (`processBatch`)
and 1199-1204 (`finaliseBatch`). -/

/-- JS `Math.round` on the non-negative inputs used here: round half up,
i.e. `⌊q + 1/2⌋`. -/
def jsMathRound (q : ℚ) : ℤ := ⌊q + (1 : ℚ) / 2⌋

/-- `calculateTimeoutMs(timeoutAtPercentageOfRemainingTime, context)`:
`Math.round(remainingTimeInMillis * timeoutAtPercentageOfRemainingTime)`
(stream-consumer.js:995-998). -/
def calculateTimeoutMs (timeoutAtPercentageOfRemainingTime : ℚ) (remainingTimeInMillis : ℤ) : ℤ :=
  jsMathRound ((remainingTimeInMillis : ℚ) * timeoutAtPercentageOfRemainingTime)

/-- Constant `MIN_FINALISE_TIMEOUT_AT_PERCENTAGE = 0.8` (stream-consumer.js:69). -/
def MIN_FINALISE_TIMEOUT_AT_PERCENTAGE : ℚ := 8 / 10

/-- The timeout set at the start of the process phase (stream-consumer.js:515-517):
`calculateTimeoutMs(context.streamProcessing.timeoutAtPercentageOfRemainingTime, context)`. -/
def processBatchTimeoutMs (timeoutAtPercentageOfRemainingTime : ℚ) (remainingTimeInMillis : ℤ) : ℤ :=
  calculateTimeoutMs timeoutAtPercentageOfRemainingTime remainingTimeInMillis

/-- The timeout set at the start of the finalise phase (stream-consumer.js:1199-1204):
`timeoutAtPercentage = Math.max(configured, MIN_FINALISE_TIMEOUT_AT_PERCENTAGE)`;
`timeoutAtLastSec = Math.max(remaining - 1000, 0)`;
`timeoutMs = Math.max(timeoutAtLastSec, calculateTimeoutMs(timeoutAtPercentage, context))`. -/
def finaliseBatchTimeoutMs (timeoutAtPercentageOfRemainingTime : ℚ) (remainingTimeInMillis : ℤ) : ℤ :=
  let timeoutAtPercentage := max timeoutAtPercentageOfRemainingTime MIN_FINALISE_TIMEOUT_AT_PERCENTAGE
  let timeoutAtLastSec := max (remainingTimeInMillis - 1000) 0
  max timeoutAtLastSec (calculateTimeoutMs timeoutAtPercentage remainingTimeInMillis)

/-! ## Task-tree finalisation views of a batch (claim C9)

`batch.js` lines 991-1013 (`isFullyFinalised`), 1020-1024 (`isMessageIncomplete`). -/

/-- A task as seen by the finalisation checks: only its `isFullyFinalised()` answer
matters to `Batch.isFullyFinalised`. -/
structure TaskLike where
  fullyFinalised : Bool
deriving DecidableEq

/-- task-utils `isAnyTaskNotFullyFinalised` applied to an optional `TasksByName`
map, whose range is modelled as the list of its tasks; an absent map has no
unfinalised task. -/
def isAnyTaskNotFullyFinalised : Option (List TaskLike) → Bool
  | none => false
  | some tasks => tasks.any fun t => !t.fullyFinalised

/-- The task-map part of a tracked `MessageState`: maps `ones`, `alls`, `discards`. -/
structure ItemTaskState where
  ones : Option (List TaskLike)
  alls : Option (List TaskLike)
  discards : Option (List TaskLike)
deriving DecidableEq

/-- The slice of a `Batch` that `Batch.isFullyFinalised` reads: the batch's own
`alls` map (`getProcessAllTasks(this)`), the tracked state of each message in
`messages`, the tracked state of each message in `rejectedMessages`, and the
`discards` map of each unusable record (`getDiscardOneTasks`). A `none` entry
models an item with no tracked state. -/
structure BatchFin where
  batchAlls : Option (List TaskLike)
  messages : List (Option ItemTaskState)
  rejectedMessages : List (Option ItemTaskState)
  unusableRecords : List (Option (List TaskLike))
deriving DecidableEq

/-- `Batch.isMessageIncomplete(message)` (batch.js:1020-1024): true when the message
has no state or any task in its `ones`, `alls` or `discards` maps is not fully
finalised. -/
def isMessageIncomplete : Option ItemTaskState → Bool
  | none => true
  | some s =>
    isAnyTaskNotFullyFinalised s.ones || isAnyTaskNotFullyFinalised s.alls ||
      isAnyTaskNotFullyFinalised s.discards

/-- `Batch.isFullyFinalised()` (batch.js:991-1013): the batch's own process-all
tasks, every message of `messages`, and every unusable record's discard tasks must
all be fully finalised. -/
def BatchFin.isFullyFinalised (b : BatchFin) : Bool :=
  !isAnyTaskNotFullyFinalised b.batchAlls &&
    (b.messages.all fun m => !isMessageIncomplete m) &&
    (b.unusableRecords.all fun u => !isAnyTaskNotFullyFinalised u)

/-! ## Task-definition validation (claim C10)

`stream-consumer.js` lines 351-395 (`validateTaskDefinitions`) and 133-182
(`processStreamEvent`): validation runs before any `Batch` is constructed and any
record is read, and a validation failure rejects the returned promise. -/

/-- A `TaskDef` as seen by `validateTaskDefinitions`: `objId` models JS object
identity (used by the shared-instance distinctness check), `executable` the
`executable` flag and `hasExecuteFunction` the `typeof t.execute === 'function'`
test. -/
structure TaskDefJ where
  objId : Nat
  name : String
  executable : Bool
  hasExecuteFunction : Bool
deriving DecidableEq

/-- The error roles raised by the stream consumer: `FatalError` versus any other
error. -/
inductive StreamError
  | fatal (msg : String)
  | nonFatal (msg : String)
deriving DecidableEq

/-- core-functions `Arrays.isDistinct`: no element occurs twice. -/
def isDistinct {α : Type} [DecidableEq α] (l : List α) : Bool := decide l.Nodup

/-- The inner `validateTaskDefs(taskDefs, name)` helper (stream-consumer.js:352-370):
an `undefined` list passes; otherwise every definition must be executable with a
valid execute function, and the task names must be distinct. Both failures throw
`FatalError`. -/
def validateTaskDefs (taskDefs : Option (List TaskDefJ)) (listName : String) :
    Except StreamError Unit :=
  match taskDefs with
  | none => .ok ()
  | some defs =>
    if !(defs.all fun t => t.executable && t.hasExecuteFunction) then
      .error (.fatal (listName ++
        " must be an array of executable TaskDef instances with valid execute functions"))
    else if !isDistinct (defs.map TaskDefJ.name) then
      .error (.fatal (listName ++ " must have no duplicate task names"))
    else .ok ()

/-- `validateTaskDefinitions(processOneTaskDefs, processAllTaskDefs, context)`
(stream-consumer.js:351-395). -/
def validateTaskDefinitions (processOneTaskDefs processAllTaskDefs : Option (List TaskDefJ)) :
    Except StreamError Unit :=
  match validateTaskDefs processOneTaskDefs "processOneTaskDefs" with
  | .error e => .error e
  | .ok _ =>
    match validateTaskDefs processAllTaskDefs "processAllTaskDefs" with
    | .error e => .error e
    | .ok _ =>
      if (processOneTaskDefs.getD []).isEmpty && (processAllTaskDefs.getD []).isEmpty then
        .error (.fatal
          "There must be at least one task definition in either of processOneTaskDefs or processAllTaskDefs")
      else if !isDistinct ((processOneTaskDefs.getD []) ++ (processAllTaskDefs.getD [])) then
        .error (.fatal
          "Any given task definition must NOT exist in both processOneTaskDefs and processAllTaskDefs")
      else .ok ()

/-- The validation front of `processStreamEvent` (stream-consumer.js:133-141): a
validation error rejects the promise before the `Batch` is constructed and before
`event.Records` is touched; otherwise a batch is created and processed. -/
inductive ProcessStreamEventOutcome
  | rejectedBeforeBatch (e : StreamError)
  | batchCreated
deriving DecidableEq

/-- `processStreamEvent(event, processOneTaskDefsOrNone, processAllTaskDefsOrNone,
context)`, restricted to its validation front. -/
def processStreamEvent (processOneTaskDefs processAllTaskDefs : Option (List TaskDefJ)) :
    ProcessStreamEventOutcome :=
  match validateTaskDefinitions processOneTaskDefs processAllTaskDefs with
  | .error e => .rejectedBeforeBatch e
  | .ok _ => .batchCreated

/-! ## Conditional save of batch state (claim C3)

Persisting module (`saveBatchStateToDynamoDB` lines 163-228, `insertBatchState`
lines 475-502, `updateBatchState` lines 504-548). -/

/-- The two write modes of the checkpoint codec. -/
inductive SaveMode
  | insert
  | update
deriving DecidableEq

/-- The two condition expressions used by the codec:
`'attribute_not_exists(streamConsumerId) AND attribute_not_exists(shardOrEventID)'`
for an insert and
`'attribute_exists(streamConsumerId) AND attribute_exists(shardOrEventID)'`
for an update. -/
inductive ConditionExpression
  | attributeNotExistsBothKeys
  | attributeExistsBothKeys
deriving DecidableEq

/-- A conditional write request issued against the batch-state table. -/
structure WriteAttempt where
  mode : SaveMode
  condition : ConditionExpression
deriving DecidableEq

/-- DynamoDB conditional-write semantics for a fixed table state: the write
succeeds iff its condition expression holds, and otherwise fails with
`ConditionalCheckFailedException`. -/
def conditionHolds (itemExists : Bool) : ConditionExpression → Bool
  | .attributeNotExistsBothKeys => !itemExists
  | .attributeExistsBothKeys => itemExists

/-- The condition expression each mode guards its write with
(`insertBatchState`:479 and `updateBatchState`:523). -/
def conditionOfMode : SaveMode → ConditionExpression
  | .insert => .attributeNotExistsBothKeys
  | .update => .attributeExistsBothKeys

/-- The mode the codec switches to on `ConditionalCheckFailedException`
(`insertBatchState`:494-498 and `updateBatchState`:539-543). -/
def otherMode : SaveMode → SaveMode
  | .insert => .update
  | .update => .insert

/-- `insertBatchState` / `updateBatchState` run against a fixed table state
`itemExists`: the write in the given mode is attempted; on conditional-check
failure the codec switches to the other mode (the JS mutual recursion is modelled
with explicit `fuel`). Returns the attempts issued in order and whether the save
finally succeeded. Other SDK errors (`TransientError`/`FatalError` wrapping) do
not switch modes and are outside this model. -/
def runBatchStateWrite (itemExists : Bool) : Nat → SaveMode → List WriteAttempt × Bool
  | 0, _ => ([], false)
  | fuel + 1, mode =>
    let attempt : WriteAttempt := ⟨mode, conditionOfMode mode⟩
    if conditionHolds itemExists (conditionOfMode mode) then ([attempt], true)
    else
      let rest := runBatchStateWrite itemExists fuel (otherMode mode)
      (attempt :: rest.1, rest.2)

/-- `saveBatchStateToDynamoDB` (persisting module lines 196-199): a truthy
`batch.previouslySaved` (the tri-state flag, truthy only when `some true`) selects
`updateBatchState`, anything else (`false` or `undefined`) selects
`insertBatchState`. -/
def firstSaveMode (previouslySaved : Option Bool) : SaveMode :=
  if previouslySaved = some true then .update else .insert

def saveBatchStateToDynamoDB (previouslySaved : Option Bool) (itemExists : Bool) (fuel : Nat) :
    List WriteAttempt × Bool :=
  runBatchStateWrite itemExists fuel (firstSaveMode previouslySaved)

/-! ## Loading batch state (claim C8)

Persisting module, `loadBatchStateFromDynamoDB` lines 238-317. -/

/-- The shape of the DynamoDB `get` request issued by `loadBatchStateFromDynamoDB`
(lines 253-266): its `ConsistentRead` flag and the attribute names of its
`ProjectionExpression`. -/
structure BatchStateGetRequest where
  consistentRead : Bool
  projectionExpression : List String
deriving DecidableEq

/-- The actual get request (lines 253-266): `ConsistentRead: true` and
`ProjectionExpression: "#streamConsumerId, #shardOrEventID, #messageStates,
#rejectedMessageStates, #unusableRecordStates"`. -/
def loadBatchStateGetRequest : BatchStateGetRequest :=
  { consistentRead := true,
    projectionExpression :=
      ["streamConsumerId", "shardOrEventID", "messageStates", "rejectedMessageStates",
        "unusableRecordStates"] }

/-- The observable outcome of `loadBatchStateFromDynamoDB`'s result handler. -/
structure LoadBatchStateOutcome where
  previouslySaved : Option Bool
  priorStateRestored : Bool
deriving DecidableEq

/-- The result handler of the get request (lines 274-292): `batch.previouslySaved`
is set to whether an `Item` was found, and `updateBatchWithPriorState` runs only
when one was. -/
def loadBatchStateFromDynamoDB (itemFound : Bool) : LoadBatchStateOutcome :=
  { previouslySaved := some itemFound, priorStateRestored := itemFound }

/-! ## Finalise-phase error priority (claim C1)

`stream-consumer.js` lines 1226-1296: the wrap-up of `finaliseBatch` after the race
between the finalising completion promise and the finalise timeout promise. -/

/-- The roles of errors flowing through the orchestrator. -/
inductive ErrorKind
  | fatalError
  | finalisedError
  | timeoutError
  | plainError
deriving DecidableEq

/-- An error instance: its role plus a tag distinguishing instances. -/
structure Err where
  kind : ErrorKind
  tag : Nat
deriving DecidableEq

/-- A `Try` outcome: a `Success` or a `Failure` carrying an error. -/
inductive Outcome
  | success (tag : Nat)
  | failure (e : Err)
deriving DecidableEq

/-- `Try.findFailure`: the first `Failure` among the (flattened) outcomes.
The orchestrator flattens nested outcome arrays before this search; the model works
on the flattened list. -/
def findFailure : List Outcome → Option Err
  | [] => none
  | .failure e :: _ => some e
  | .success _ :: rest => findFailure rest

/-- The predicate of the `FinalisedError` scan (stream-consumer.js:1247-1248):
`o && o.isFailure && o.isFailure() && isInstanceOf(o.error, FinalisedError)`. -/
def isFinalisedErrorFailure : Outcome → Bool
  | .failure e => match e.kind with | .finalisedError => true | _ => false
  | .success _ => false

/-- The promotion of a `FinalisedError` failure into a new `FatalError`
(stream-consumer.js:1252). -/
def promoteToFatal (e : Err) : Err := ⟨.fatalError, e.tag⟩

/-- The fresh generic error thrown when the batch is still incomplete with no
failure to blame (stream-consumer.js:1267); its tag is an arbitrary fixed fresh
tag. -/
def stillIncompleteError : Err := ⟨.plainError, 1000000⟩

/-- The fresh error for an unexpected non-array finalising outcome
(stream-consumer.js:1280); its tag is an arbitrary fixed fresh tag. -/
def unexpectedOutcomeError : Err := ⟨.plainError, 1000001⟩

/-- How the `Promise.race([completedPromise, timeoutPromise])` settled
(stream-consumer.js:1226): with the array of finalising outcomes, with a non-array
value (then `task.error` may hold a timeout error), or rejected (finalise timeout
triggered or the finalising promise failed). -/
inductive FinaliseRace
  | completed (finaliseOutcomes : List Outcome)
  | completedNonArray (taskError : Option Err)
  | rejected (e : Err)
deriving DecidableEq

/-- The observable outcome of `finaliseBatch`: resolve with the batch or reject. -/
inductive FinaliseResult
  | resolvedFullyFinalised
  | rejectedWith (e : Err)
deriving DecidableEq

/-- The success-branch wrap-up of `finaliseBatch` (stream-consumer.js:1229-1283):
first the first finalising failure is re-thrown; then, if the batch is not fully
finalised, a `FinalisedError` among the processing outcomes is promoted to a
`FatalError` and thrown, else the first processing failure is re-thrown, else the
generic "still incomplete" error is thrown; only then, an array outcome resolves
with the batch, and a non-array outcome throws `task.error` or an "unexpected
outcome" error. `outcomes = none` models a non-array race value. -/
def finaliseWrapUp (outcomes : Option (List Outcome)) (taskError : Option Err)
    (processOutcomes : List Outcome) (fullyFinalised : Bool) : FinaliseResult :=
  match findFailure (outcomes.getD []) with
  | some finaliseError => .rejectedWith finaliseError
  | none =>
    if !fullyFinalised then
      match processOutcomes.find? isFinalisedErrorFailure with
      | some (.failure e) => .rejectedWith (promoteToFatal e)
      | _ =>
        match findFailure processOutcomes with
        | some processError => .rejectedWith processError
        | none => .rejectedWith stillIncompleteError
    else
      match outcomes with
      | some _ => .resolvedFullyFinalised
      | none => .rejectedWith (taskError.getD unexpectedOutcomeError)

/-- `finaliseBatch`'s decision as a function of how the race settled
(stream-consumer.js:1229-1296): the error branch re-throws the race error
(lines 1285-1296), the success branch runs the wrap-up cascade. -/
def finaliseBatch (race : FinaliseRace) (processOutcomes : List Outcome)
    (fullyFinalised : Bool) : FinaliseResult :=
  match race with
  | .rejected e => .rejectedWith e
  | .completed outcomes => finaliseWrapUp (some outcomes) none processOutcomes fullyFinalised
  | .completedNonArray taskError => finaliseWrapUp none taskError processOutcomes fullyFinalised

/-- The decision claimed by C1, written from the claim's words: if, after the
finalise phase completes or times out, the batch is not fully finalised, a
`FinalisedError` found among the processing outcomes is promoted to a `FatalError`
and thrown first; otherwise the first process-phase or finalise-phase failure is
re-thrown; only as a last resort a generic "still incomplete" error is thrown; a
fully finalised batch resolves. -/
def claimedFinaliseDecision (race : FinaliseRace) (processOutcomes : List Outcome)
    (fullyFinalised : Bool) : FinaliseResult :=
  if fullyFinalised then .resolvedFullyFinalised
  else
    match processOutcomes.find? isFinalisedErrorFailure with
    | some (.failure e) => .rejectedWith (promoteToFatal e)
    | _ =>
      match findFailure processOutcomes with
      | some processError => .rejectedWith processError
      | none =>
        match race with
        | .completed outcomes =>
          match findFailure outcomes with
          | some e => .rejectedWith e
          | none => .rejectedWith stillIncompleteError
        | .completedNonArray taskError => .rejectedWith (taskError.getD stillIncompleteError)
        | .rejected e => .rejectedWith e

/-- The amended decision: a finalise-phase failure among the finalising outcomes is
re-thrown first (even when the batch is fully finalised); otherwise, when the batch
is not fully finalised, a `FinalisedError` among the processing outcomes is
promoted to a `FatalError` and thrown, else the first process-phase failure is
re-thrown, else a generic "still incomplete" error is thrown; a race rejection
(timeout or finalising failure) is re-thrown as is; the invocation resolves only
with a fully finalised batch. -/
def amendedFinaliseDecision (race : FinaliseRace) (processOutcomes : List Outcome)
    (fullyFinalised : Bool) : FinaliseResult :=
  match race with
  | .rejected e => .rejectedWith e
  | .completed outcomes =>
    match findFailure outcomes with
    | some e => .rejectedWith e
    | none =>
      if fullyFinalised then .resolvedFullyFinalised
      else
        match processOutcomes.find? isFinalisedErrorFailure with
        | some (.failure e) => .rejectedWith (promoteToFatal e)
        | _ =>
          match findFailure processOutcomes with
          | some e => .rejectedWith e
          | none => .rejectedWith stillIncompleteError
  | .completedNonArray taskError =>
    if fullyFinalised then .rejectedWith (taskError.getD unexpectedOutcomeError)
    else
      match processOutcomes.find? isFinalisedErrorFailure with
      | some (.failure e) => .rejectedWith (promoteToFatal e)
      | _ =>
        match findFailure processOutcomes with
        | some e => .rejectedWith e
        | none => .rejectedWith stillIncompleteError

/-! ## Process-one task chain advancement (claim C2)

`stream-consumer.js` lines 847-922 (`executeProcessOneTasks`). -/

/-- A process-one task of a message, reduced to the two `isFullyFinalised()`
answers that the chain-advancement logic reads: at collection time (line 866,
before execution) and after its execution's done promise settles (line 893). The
user callback itself is external: its effect is whatever `fullyFinalisedAfter`
says. -/
structure ProcessOneTask where
  fullyFinalisedBefore : Bool
  fullyFinalisedAfter : Bool
deriving DecidableEq

/-- A message in a key chain, carrying its `ones` process-one tasks
(`messageState.ones`, line 860). -/
structure ChainedMessage where
  ones : List ProcessOneTask
deriving DecidableEq

/-- `tasks.filter(task => !task.isFullyFinalised())` at collection time
(stream-consumer.js:866). -/
def incompleteTasks (m : ChainedMessage) : List ProcessOneTask :=
  m.ones.filter fun t => !t.fullyFinalisedBefore

/-- `executeProcessOneTasks(batch, message, cancellable, context)` along a key
chain: the chain `prevMessage`/`nextMessage` links are the list order, position `i`
is the head the recursion entered at. Returns the positions of the messages on
which `executeProcessOneTasks` is invoked in this invocation. `cancelled j` says
whether the installed cancel hook had fired by the time position `j`'s next-message
check ran (lines 889-911): the next message is started only when there is one, the
chain was not cancelled, and every initially-incomplete task of the current message
is fully finalised after its execution settles (lines 889-907). -/
def executeProcessOneTasks (cancelled : Nat → Bool) : List ChainedMessage → Nat → List Nat
  | [], _ => []
  | m :: rest, i =>
    i :: (match rest with
      | [] => []
      | _ :: _ =>
        if !cancelled i && (incompleteTasks m).all (fun t => t.fullyFinalisedAfter) then
          executeProcessOneTasks cancelled rest (i + 1)
        else [])

/-! ## Same-key message comparison (claim C5)

Sequencing module, `compareSameKeyMessages` lines 131-198. -/

/-- A resolved sortable projection attached to a sequence-number part by
`prepareMessagesForSequencing`: the `sortType` string assigned by core-functions
`sorting.toSortable`, and its compare function over the normalized part values
(modelled over `Int`; an absent `compare` models a sortable without a compare
function). -/
structure SortableJ where
  sortType : String
  compare : Option (Int → Int → Int)

/-- One normalized sequence-number part `[key, value]` with its attached sortable
(the `sortable` property may be absent). -/
structure SeqNoPart where
  key : String
  value : Int
  sortable : Option SortableJ

/-- The slice of a tracked `MessageState` that `compareSameKeyMessages` reads: the
`keys` list of `[name, value]` pairs and the normalized `seqNos` parts. -/
structure SequencedMsgState where
  keys : List (String × String)
  seqNos : List SeqNoPart

/-- Three-way lexicographic comparison of char lists by code point. -/
def compareCharLists : List Char → List Char → Int
  | [], [] => 0
  | [], _ :: _ => -1
  | _ :: _, [] => 1
  | c1 :: r1, c2 :: r2 =>
    if c1 < c2 then -1 else if c2 < c1 then 1 else compareCharLists r1 r2

/-- core-functions `sorting.compareStrings` with `{ignoreCase: false}`: the
three-way lexicographic string comparison, returning -1, 0 or +1. -/
def compareStrings (s1 s2 : String) : Int :=
  compareCharLists s1.data s2.data

/-- The per-part loop of `compareSameKeyMessages` (lines 159-196), reached only
with equal-length part lists: part keys are compared (`keyComparison` is returned
on a mismatch); a sort-type disagreement between the two sortables fails hard
(`throwErrorOrWarn` with `throwError = true`); a missing sortable or compare
function fails hard; otherwise the values are compared with the sortable's compare
function and a nonzero result is clamped to ±1. -/
def comparePartsLoop : List SeqNoPart → List SeqNoPart → Except String Int
  | p1 :: r1, p2 :: r2 =>
    let keyComparison := compareStrings p1.key p2.key
    if keyComparison ≠ 0 then .ok keyComparison
    else
      let sortType1 := p1.sortable.map SortableJ.sortType
      let sortType2 := p2.sortable.map SortableJ.sortType
      if sortType1 ≠ sortType2 then .error "different sort types at matching part keys"
      else
        match p1.sortable.orElse (fun _ => p2.sortable) with
        | none => .error "missing compare function"
        | some sortable =>
          match sortable.compare with
          | none => .error "missing compare function"
          | some cmp =>
            let valueComparison := cmp p1.value p2.value
            if valueComparison < 0 then .ok (-1)
            else if valueComparison > 0 then .ok 1
            else comparePartsLoop r1 r2
  | _, _ => .ok 0

/-- `compareSameKeyMessages(msg1, msg2, states, context)` (lines 131-198): messages
with different `keys` cannot be compared (throws); then the part counts are
compared — the message with fewer sequence-number parts sorts after the other
(returns before any per-part comparison) — and only equal-length part lists enter
the per-part loop. -/
def compareSameKeyMessages (msg1State msg2State : SequencedMsgState) : Except String Int :=
  if msg1State.keys ≠ msg2State.keys then
    .error "Cannot compare sequence numbers of messages with different keys"
  else
    let len1 := msg1State.seqNos.length
    let len2 := msg2State.seqNos.length
    let maxParts := max len1 len2
    if len1 < maxParts then .ok 1
    else if len2 < maxParts then .ok (-1)
    else comparePartsLoop msg1State.seqNos msg2State.seqNos

/-- The comparator described by claim C5's ordered steps: part-key names are
compared ordinal by ordinal first (a part-key mismatch breaks the tie by part-key
name, a sort-kind disagreement fails hard, values are compared by the sortable's
compare function), and only when one message runs out of parts does the message
with fewer parts sort after the other. -/
def claimedCompareLoop : List SeqNoPart → List SeqNoPart → Except String Int
  | [], [] => .ok 0
  | [], _ :: _ => .ok 1
  | _ :: _, [] => .ok (-1)
  | p1 :: r1, p2 :: r2 =>
    let keyComparison := compareStrings p1.key p2.key
    if keyComparison ≠ 0 then .ok keyComparison
    else
      let sortType1 := p1.sortable.map SortableJ.sortType
      let sortType2 := p2.sortable.map SortableJ.sortType
      if sortType1 ≠ sortType2 then .error "different sort types at matching part keys"
      else
        match p1.sortable.orElse (fun _ => p2.sortable) with
        | none => .error "missing compare function"
        | some sortable =>
          match sortable.compare with
          | none => .error "missing compare function"
          | some cmp =>
            let valueComparison := cmp p1.value p2.value
            if valueComparison < 0 then .ok (-1)
            else if valueComparison > 0 then .ok 1
            else claimedCompareLoop r1 r2

/-- The full comparator claimed by C5's ordered steps. -/
def claimedCompareSameKeyMessages (msg1State msg2State : SequencedMsgState) :
    Except String Int :=
  if msg1State.keys ≠ msg2State.keys then
    .error "Cannot compare sequence numbers of messages with different keys"
  else claimedCompareLoop msg1State.seqNos msg2State.seqNos

/-- The comparator of the amended claim C5: the part-count check precedes every
per-ordinal comparison (the message with fewer parts sorts after the other,
regardless of part-key names); equal-length part lists follow the claim's steps. -/
def amendedCompareSameKeyMessages (msg1State msg2State : SequencedMsgState) :
    Except String Int :=
  if msg1State.keys ≠ msg2State.keys then
    .error "Cannot compare sequence numbers of messages with different keys"
  else if msg1State.seqNos.length < msg2State.seqNos.length then .ok 1
  else if msg2State.seqNos.length < msg1State.seqNos.length then .ok (-1)
  else claimedCompareLoop msg1State.seqNos msg2State.seqNos

/-- Decidable equality of `Except` results (not derived in core). -/
instance {e a : Type} [DecidableEq e] [DecidableEq a] : DecidableEq (Except e a) := fun x y =>
  match x, y with
  | .ok v, .ok w =>
    if h : v = w then isTrue (by rw [h]) else isFalse (by intro hc; cases hc; exact h rfl)
  | .error v, .error w =>
    if h : v = w then isTrue (by rw [h]) else isFalse (by intro hc; cases hc; exact h rfl)
  | .ok _, .error _ => isFalse (by intro hc; cases hc)
  | .error _, .ok _ => isFalse (by intro hc; cases hc)

/-- The integer three-way comparison, standing in for a resolved compare function. -/
def intCompare : Int → Int → Int := fun a b => if a < b then -1 else if b < a then 1 else 0

/-- A sortable with sort type "integer" and the integer comparison. -/
def exSortable : SortableJ := ⟨"integer", some intCompare⟩

/-- A message state with one sequence-number part named "a". -/
def exMsg1 : SequencedMsgState := ⟨[("k", "K1")], [⟨"a", 1, some exSortable⟩]⟩

/-- A message state with the same keys and two parts named "b" and "c". -/
def exMsg2 : SequencedMsgState :=
  ⟨[("k", "K1")], [⟨"b", 1, some exSortable⟩, ⟨"c", 2, some exSortable⟩]⟩

/-! ## Message sequencing and chain linking (claim C6)

Sequencing module, `sequenceMessages` lines 283-351; `extractAndSequenceMessages`
(stream-consumer.js:585-601) assigns the returned list to
`batch.firstMessagesToProcess`. -/

/-- A message as the sequencer sees it: an identity tag (JS object identity) plus
the slice of its tracked state that grouping reads — the joined `key` string and
whether its `keys` list is non-empty. -/
structure SeqMsg where
  tag : Nat
  key : String
  hasKeys : Bool
deriving DecidableEq

/-- The group-by key (sequencing lines 302-307): the joined key string when the
message has keys, otherwise the string "?". -/
def groupKeyOf (m : SeqMsg) : String := if m.hasKeys then m.key else "?"

/-- The group of messages sharing the key string `k`, in batch order (lodash
`groupBy` preserves element order within a group). -/
def groupOf (messages : List SeqMsg) (k : String) : List SeqMsg :=
  messages.filter fun m => groupKeyOf m == k

/-- The distinct group-key strings. The enumeration order of the JS object's
property names is not modelled: the claim's statements about the heads are
membership statements, insensitive to group order. -/
def distinctGroupKeys (messages : List SeqMsg) : List String :=
  (messages.map groupKeyOf).dedup

/-- `msgs.sort(comparator)` (line 319), modelled as a sort with respect to
`comparator(a, b) <= 0`. Which stable sort the JS engine uses is immaterial to the
claim: only that the result is the group sorted by the same-key comparator. -/
def sortJS (cmp : SeqMsg → SeqMsg → Int) (l : List SeqMsg) : List SeqMsg :=
  l.insertionSort fun a b => cmp a b ≤ 0

/-- The `setPrevMessage` assignments made while linking one sorted group
(lines 323-339): the head's `prevMessage` is set to `undefined`, every later
element's to its predecessor. -/
def linkGroupPrev : Option SeqMsg → List SeqMsg → List (SeqMsg × Option SeqMsg)
  | _, [] => []
  | prev, a :: rest => (a, prev) :: linkGroupPrev (some a) rest

/-- The `setNextMessage` assignments (lines 334-342): every element's
`nextMessage` is set to its successor, the last one's to `undefined`. -/
def linkGroupNext : List SeqMsg → List (SeqMsg × Option SeqMsg)
  | [] => []
  | [a] => [(a, none)]
  | a :: b :: rest => (a, some b) :: linkGroupNext (b :: rest)

/-- What `sequenceMessages` produces: the returned `firstMessagesToProcess` and the
`prevMessage`/`nextMessage` link assignments written into the message states. -/
structure SequenceResult where
  firstMessagesToProcess : List SeqMsg
  prevLinks : List (SeqMsg × Option SeqMsg)
  nextLinks : List (SeqMsg × Option SeqMsg)
deriving DecidableEq

/-- `sequenceMessages(batch, context)` (lines 283-351): fewer than two messages or
`sequencingRequired` disabled returns the messages unlinked; otherwise the messages
are grouped by their joined key string (one global group when `sequencingPerKey` is
disabled), each group is sorted with the comparator, linked along the sorted order,
and the sorted heads (`msgs[0]` after the in-place sort) are returned. -/
def sequenceMessages (messages : List SeqMsg) (cmp : SeqMsg → SeqMsg → Int)
    (sequencingRequired sequencingPerKey : Bool) : SequenceResult :=
  if messages.length < 2 || !sequencingRequired then
    { firstMessagesToProcess := messages, prevLinks := [], nextLinks := [] }
  else
    let groups :=
      if sequencingPerKey then (distinctGroupKeys messages).map (groupOf messages)
      else [messages]
    let sortedGroups := groups.map (sortJS cmp)
    { firstMessagesToProcess := sortedGroups.filterMap List.head?,
      prevLinks := (sortedGroups.map (linkGroupPrev none)).flatten,
      nextLinks := (sortedGroups.map linkGroupNext).flatten }

/-- Whether a message ends sequencing with no `prevMessage`: its written link is
`undefined`, or no link was written (links are reset to `undefined` during
identification). -/
def hasNoPrevMessage (res : SequenceResult) (m : SeqMsg) : Bool :=
  match res.prevLinks.find? fun p => p.1 == m with
  | some (_, some _) => false
  | _ => true

/-! ## Restoration of prior message states (claim C4)

Persisting module, `restoreMessageAndRejectedMessageStates` lines 635-694,
`cachePrevStatesByBfkOrMsg` lines 696-725, `setMessageStateToPrev` lines 727-731;
`Batch.moveMessageToRejected` (batch.js:863-871) and `Batch.allMessages`
(batch.js:186-188). -/

/-- A message object: a JS-identity tag plus its content (`deepEqual` compares
contents; distinct objects may share content). -/
structure MsgObj where
  tag : Nat
  content : Nat
deriving DecidableEq

/-- The three task maps that restoration overlays (`TaskMapNames.ones`, `alls`,
`discards`); their values are copied wholesale by `setStatePropertyToPrevious`, so
they are modelled as opaque payloads. -/
structure TaskMaps4 where
  ones : Option Nat
  alls : Option Nat
  discards : Option Nat
deriving DecidableEq

/-- The slice of a (current or previous) message state that restoration reads and
writes. `hasMessageIdentifier` (persisting lines 567-574) and `toMessageBFK`
(lines 581-592) are abstracted into the `hasIdentifier` and `bfk` attributes: both
are functions of identifier fields (`eventID`, id/key/seqNo values, md5s) that the
overlay of `ones`/`alls`/`discards` never changes. `message`, `userRecord` and
`record` carry the contents used for `deepEqual` matching (the `message` copy is
attached to stored states lacking an identifier). -/
structure MsgStateR where
  hasIdentifier : Bool
  bfk : String
  message : Option Nat
  userRecord : Option Nat
  record : Option Nat
  maps : TaskMaps4
deriving DecidableEq

/-- The slice of a `Batch` that restoration touches: `messages`,
`rejectedMessages` and the `states` map (a `WeakMap` keyed by message object,
modelled as a function from message objects to their optional tracked state). -/
structure BatchR where
  messages : List MsgObj
  rejectedMessages : List MsgObj
  states : MsgObj → Option MsgStateR

/-- `states.get(m)`. -/
def getState (states : MsgObj → Option MsgStateR) (m : MsgObj) : Option MsgStateR :=
  states m

/-- `setMessageStateToPrev(currState, prevState, ...)` (lines 727-731): replace the
current state's `ones`, `alls` and `discards` with the previous state's values. -/
def setStateMaps (states : MsgObj → Option MsgStateR) (m : MsgObj) (maps : TaskMaps4) :
    MsgObj → Option MsgStateR :=
  fun m' => if m' = m then (states m').map fun s => { s with maps := maps } else states m'

/-- `Batch.allMessages()` (batch.js:186-188): `uniq(messages.concat(rejected))`.
(`dedup` agrees with lodash `uniq` on the duplicate-free lists of well-formed
batches.) -/
def allMessages (b : BatchR) : List MsgObj := (b.messages ++ b.rejectedMessages).dedup

/-- `cachePrevStatesByBfkOrMsg(prevMsgStates, messages, states, context)`
(lines 696-725): previous states with an identifier are indexed by their BFK
(`Map.set` — a later state overwrites an earlier one with the same BFK, modelled by
consing fresher entries to the front with a first-match lookup); a state without an
identifier is indexed under the first message whose own object / user record /
record deep-equals the attached copy. -/
def cachePrevStatesByBfkOrMsg (prevMsgStates : List MsgStateR) (messages : List MsgObj)
    (states : MsgObj → Option MsgStateR) :
    List (String × MsgStateR) × List (MsgObj × MsgStateR) :=
  prevMsgStates.foldl
    (fun maps prevState =>
      if prevState.hasIdentifier then ((prevState.bfk, prevState) :: maps.1, maps.2)
      else
        match prevState.message with
        | some c =>
          match messages.find? fun m => m.content == c with
          | some m => (maps.1, (m, prevState) :: maps.2)
          | none => maps
        | none =>
          match prevState.userRecord with
          | some c =>
            match messages.find? fun m =>
                ((getState states m).bind MsgStateR.userRecord) == some c with
            | some m => (maps.1, (m, prevState) :: maps.2)
            | none => maps
          | none =>
            match prevState.record with
            | some c =>
              match messages.find? fun m =>
                  ((getState states m).bind MsgStateR.record) == some c with
              | some m => (maps.1, (m, prevState) :: maps.2)
              | none => maps
            | none => maps)
    ([], [])

/-- Prior-state lookup for one message (lines 652-655 and 678-681): by BFK when the
current state has an identifier, otherwise by the message object in the
content-match map. -/
def lookupPrevState (byBfk : List (String × MsgStateR)) (byMsg : List (MsgObj × MsgStateR))
    (currState : MsgStateR) (m : MsgObj) : Option MsgStateR :=
  if currState.hasIdentifier then ((byBfk.find? fun p => p.1 == currState.bfk).map Prod.snd)
  else ((byMsg.find? fun p => p.1 == m).map Prod.snd)

/-- `Batch.moveMessageToRejected(rejectedMsg)` (batch.js:863-871): push onto
`rejectedMessages` unless already present, then splice out of `messages`. -/
def moveMessageToRejected (b : BatchR) (m : MsgObj) : BatchR :=
  { b with
    rejectedMessages :=
      if b.rejectedMessages.contains m then b.rejectedMessages else b.rejectedMessages ++ [m],
    messages := b.messages.erase m }

/-- One iteration of the active-messages restoration loop (lines 649-671): both
prior maps are consulted; the overlay source is the message-map match if any, else
the rejected-map match; the message is moved to `rejectedMessages` whenever a
rejected-map match exists. A message without a tracked state is outside the
modelled domain (the source would fault on it) and is left unchanged. -/
def restoreActiveMessageStep (byBfkMsg byBfkRej : List (String × MsgStateR))
    (byMsgMsg byMsgRej : List (MsgObj × MsgStateR)) (b : BatchR) (m : MsgObj) : BatchR :=
  match getState b.states m with
  | none => b
  | some currState =>
    let prevMsgState := lookupPrevState byBfkMsg byMsgMsg currState m
    let prevRejMsgState := lookupPrevState byBfkRej byMsgRej currState m
    match prevMsgState.orElse fun _ => prevRejMsgState with
    | none => b
    | some prevState =>
      let b1 := if prevRejMsgState.isSome then moveMessageToRejected b m else b
      { b1 with states := setStateMaps b1.states m prevState.maps }

/-- One iteration of the rejected-messages restoration loop (lines 674-693): the
rejected-map match takes precedence; only the state is overlaid. -/
def restoreRejectedMessageStep (byBfkMsg byBfkRej : List (String × MsgStateR))
    (byMsgMsg byMsgRej : List (MsgObj × MsgStateR)) (b : BatchR) (m : MsgObj) : BatchR :=
  match getState b.states m with
  | none => b
  | some currState =>
    let prevRejMsgState := lookupPrevState byBfkRej byMsgRej currState m
    let prevMsgState := lookupPrevState byBfkMsg byMsgMsg currState m
    match prevRejMsgState.orElse fun _ => prevMsgState with
    | none => b
    | some prevState => { b with states := setStateMaps b.states m prevState.maps }

/-- The two restoration loops (lines 648-693): restore each message of a copy of
`messages`, then restore each message of a copy of the (possibly grown)
`rejectedMessages`. -/
def restoreFolds (A B : List (String × MsgStateR)) (C D : List (MsgObj × MsgStateR))
    (b : BatchR) : BatchR :=
  let b1 := b.messages.foldl (restoreActiveMessageStep A B C D) b
  b1.rejectedMessages.foldl (restoreRejectedMessageStep A B C D) b1

/-- `restoreMessageAndRejectedMessageStates(batch, item, context)` (lines 635-694):
build the four prior-state maps over `allMessages`, then run the two restoration
loops. -/
def restoreMessageAndRejectedMessageStates (b : BatchR)
    (itemMessageStates itemRejectedMessageStates : List MsgStateR) : BatchR :=
  let allMsgs := allMessages b
  if allMsgs.isEmpty then b
  else
    let msgMaps := cachePrevStatesByBfkOrMsg itemMessageStates allMsgs b.states
    let rejMaps := cachePrevStatesByBfkOrMsg itemRejectedMessageStates allMsgs b.states
    restoreFolds msgMaps.1 rejMaps.1 msgMaps.2 rejMaps.2 b

/-- Overlaying an optional matched prior state onto a current state. -/
def overlayPrev (curr : MsgStateR) : Option MsgStateR → MsgStateR
  | some p => { curr with maps := p.maps }
  | none => curr

/-- The per-message restoration contract asserted by the amended claim C4: for a
message `m` of the batch's `messages` list with current state `currState`, both
prior maps are consulted (by BFK when the state has an identifier, else by content
match); `m` is moved from `messages` to `rejectedMessages` exactly when a
rejected-map match exists; and the final task-map overlay comes from the
rejected-map match when present (the moved message is restored a second time as a
rejected message, where the rejected-map state takes precedence), else from the
message-map match, else the state is unchanged. -/
def restoredMessageContract (b : BatchR)
    (itemMessageStates itemRejectedMessageStates : List MsgStateR) (m : MsgObj) : Prop :=
  let msgMaps := cachePrevStatesByBfkOrMsg itemMessageStates (allMessages b) b.states
  let rejMaps := cachePrevStatesByBfkOrMsg itemRejectedMessageStates (allMessages b) b.states
  let out := restoreMessageAndRejectedMessageStates b itemMessageStates itemRejectedMessageStates
  ∀ currState, getState b.states m = some currState →
    let pm := lookupPrevState msgMaps.1 msgMaps.2 currState m
    let pr := lookupPrevState rejMaps.1 rejMaps.2 currState m
    (m ∈ out.rejectedMessages ↔ pr.isSome = true) ∧
      (m ∈ out.messages ↔ pr = none) ∧
      getState out.states m = some (overlayPrev currState (pr.orElse fun _ => pm))

/-- C4 counterexample data: a single message whose state carries BFK "X". -/
def c4Msg : MsgObj := ⟨0, 0⟩

/-- C4 counterexample data: the current state of `c4Msg`. -/
def c4CurrState : MsgStateR := ⟨true, "X", none, none, none, ⟨none, none, none⟩⟩

/-- C4 counterexample data: the batch holding `c4Msg` as an active message. -/
def c4Batch : BatchR :=
  ⟨[c4Msg], [], fun m => if m = c4Msg then some c4CurrState else none⟩

/-- C4 counterexample data: a prior message-state with the same BFK. -/
def c4PrevMsgState : MsgStateR := ⟨true, "X", none, none, none, ⟨some 1, none, none⟩⟩

/-- C4 counterexample data: a prior rejected-message-state with the same BFK. -/
def c4PrevRejState : MsgStateR := ⟨true, "X", none, none, none, ⟨some 2, none, none⟩⟩

end StreamConsumerCore

namespace StreamConsumerCore

/-- JS `Math.round` lands within half a unit of its argument. -/
theorem jsMathRound_dist_le_half (q : ℚ) : |((jsMathRound q : ℤ) : ℚ) - q| ≤ 1 / 2 := by
  have h1 : ((⌊q + (1 : ℚ) / 2⌋ : ℤ) : ℚ) ≤ q + 1 / 2 := Int.floor_le _
  have h2 : q + (1 : ℚ) / 2 < (⌊q + (1 : ℚ) / 2⌋ : ℤ) + 1 := Int.lt_floor_add_one _
  rw [jsMathRound, abs_le]
  constructor <;> linarith

/-- C7 (counterexample): the claim says the process-phase timeout equals the
remaining time multiplied by the configured percentage; with 1 ms remaining and a
percentage of 1/2 the code computes `Math.round(0.5) = 1`, not `0.5`. -/
theorem C7_counterexample :
    ((processBatchTimeoutMs (1 / 2) 1 : ℤ) : ℚ) ≠ (1 : ℚ) * (1 / 2) := by
  have h : processBatchTimeoutMs (1 / 2) 1 = 1 := by
    unfold processBatchTimeoutMs calculateTimeoutMs jsMathRound
    norm_num
  rw [h]
  norm_num

/-- C7 (amended): the process-phase timeout is the remaining time multiplied by the
configured `timeoutAtPercentageOfRemainingTime`, rounded to the nearest millisecond
(so it is within 1/2 ms of the exact product), and the finalise-phase timeout is the
maximum of (remaining − 1000 ms, floored at 0) and the rounded product of the
remaining time with `max(configured, 0.8)`. -/
theorem C7_phase_timeouts (pct : ℚ) (remaining : ℤ) :
    processBatchTimeoutMs pct remaining = jsMathRound ((remaining : ℚ) * pct) ∧
      |((processBatchTimeoutMs pct remaining : ℤ) : ℚ) - (remaining : ℚ) * pct| ≤ 1 / 2 ∧
      finaliseBatchTimeoutMs pct remaining
        = max (max (remaining - 1000) 0) (jsMathRound ((remaining : ℚ) * max pct (8 / 10))) ∧
      |((jsMathRound ((remaining : ℚ) * max pct (8 / 10)) : ℤ) : ℚ)
          - (remaining : ℚ) * max pct (8 / 10)| ≤ 1 / 2 :=
  ⟨rfl, jsMathRound_dist_le_half _, rfl, jsMathRound_dist_le_half _⟩

/-- C9: `Batch.isFullyFinalised()` depends only on the batch-level process-all
tasks, the tasks of messages still in `messages`, and the discard tasks of
unusable records: replacing `rejectedMessages` by any other list (in particular,
adding a rejected message whose discard task is not fully finalised) never changes
the result, and a concrete batch witnesses that the batch can report fully
finalised while a rejected message's discard task is still unfinalised. -/
theorem C9_isFullyFinalised_ignores_rejectedMessages :
    (∀ (b : BatchFin) (rej : List (Option ItemTaskState)),
        BatchFin.isFullyFinalised { b with rejectedMessages := rej } = b.isFullyFinalised) ∧
      BatchFin.isFullyFinalised
        { batchAlls := some [⟨true⟩], messages := [some ⟨some [⟨true⟩], none, none⟩],
          rejectedMessages := [some ⟨none, none, some [⟨false⟩]⟩],
          unusableRecords := [some [⟨true⟩]] } = true := by
  refine ⟨fun b rej => rfl, by decide⟩

section ValidationLemmas

theorem isDistinct_eq_true_iff {α : Type} [DecidableEq α] (l : List α) :
    isDistinct l = true ↔ l.Nodup := by
  simp [isDistinct]

theorem validateTaskDefs_fatal_or_ok (td : Option (List TaskDefJ)) (listName : String) :
    validateTaskDefs td listName = .ok () ∨
      ∃ m, validateTaskDefs td listName = .error (.fatal m) := by
  rcases td with _ | defs
  · exact .inl rfl
  · simp only [validateTaskDefs]
    split_ifs with h1 h2
    · exact .inr ⟨_, rfl⟩
    · exact .inr ⟨_, rfl⟩
    · exact .inl rfl

theorem validateTaskDefs_some_ok_iff (defs : List TaskDefJ) (listName : String) :
    validateTaskDefs (some defs) listName = .ok () ↔
      (∀ d ∈ defs, d.executable = true ∧ d.hasExecuteFunction = true) ∧
        (defs.map TaskDefJ.name).Nodup := by
  simp only [validateTaskDefs]
  split_ifs with h1 h2
  · simp only [Bool.not_eq_true', List.all_eq_false] at h1
    obtain ⟨d, hd, hne⟩ := h1
    constructor
    · intro h; cases h
    · rintro ⟨hall, -⟩
      have hx := hall d hd
      rw [hx.1, hx.2] at hne
      exact hne rfl
  · rw [Bool.not_eq_true'] at h2
    constructor
    · intro h; cases h
    · rintro ⟨-, hnodup⟩
      rw [← isDistinct_eq_true_iff] at hnodup
      rw [hnodup] at h2
      cases h2
  · rw [Bool.not_eq_true, Bool.not_eq_false'] at h1
    rw [Bool.not_eq_true, Bool.not_eq_false'] at h2
    constructor
    · intro _
      refine ⟨fun d hd => ?_, (isDistinct_eq_true_iff _).mp h2⟩
      have hall := List.all_eq_true.mp h1 d hd
      simpa using hall
    · intro _; rfl

theorem validateTaskDefinitions_ok_then (one all : Option (List TaskDefJ))
    (h : validateTaskDefinitions one all = .ok ()) :
    validateTaskDefs one "processOneTaskDefs" = .ok () ∧
      validateTaskDefs all "processAllTaskDefs" = .ok () ∧
      ¬(one.getD [] = [] ∧ all.getD [] = []) := by
  unfold validateTaskDefinitions at h
  cases h1 : validateTaskDefs one "processOneTaskDefs" with
  | error e => rw [h1] at h; cases h
  | ok u =>
    cases u
    rw [h1] at h
    cases h2 : validateTaskDefs all "processAllTaskDefs" with
    | error e => rw [h2] at h; cases h
    | ok v =>
      cases v
      rw [h2] at h
      refine ⟨rfl, rfl, fun he => ?_⟩
      rw [he.1, he.2] at h
      simp at h

theorem validateTaskDefinitions_fatal_or_ok (one all : Option (List TaskDefJ)) :
    validateTaskDefinitions one all = .ok () ∨
      ∃ m, validateTaskDefinitions one all = .error (.fatal m) := by
  unfold validateTaskDefinitions
  rcases validateTaskDefs_fatal_or_ok one "processOneTaskDefs" with h1 | ⟨m, h1⟩
  · rw [h1]
    rcases validateTaskDefs_fatal_or_ok all "processAllTaskDefs" with h2 | ⟨m, h2⟩
    · rw [h2]
      split_ifs with h3 h4
      · exact .inr ⟨_, rfl⟩
      · exact .inr ⟨_, rfl⟩
      · exact .inl rfl
    · rw [h2]; exact .inr ⟨m, rfl⟩
  · rw [h1]; exact .inr ⟨m, rfl⟩

end ValidationLemmas

/-- C10: `processStreamEvent` rejects with a `FatalError`, before constructing a
batch or touching any record, whenever both task-definition lists are empty or
undefined, and likewise when either list contains a non-executable definition (or
one without an execute function) or duplicate task names. -/
theorem C10_processStreamEvent_rejects_fatally
    (processOneTaskDefs processAllTaskDefs : Option (List TaskDefJ))
    (h : (processOneTaskDefs.getD [] = [] ∧ processAllTaskDefs.getD [] = []) ∨
      ∃ l, (processOneTaskDefs = some l ∨ processAllTaskDefs = some l) ∧
        ((∃ d ∈ l, ¬(d.executable = true ∧ d.hasExecuteFunction = true)) ∨
          ¬(l.map TaskDefJ.name).Nodup)) :
    ∃ msg, processStreamEvent processOneTaskDefs processAllTaskDefs
      = .rejectedBeforeBatch (.fatal msg) := by
  rcases validateTaskDefinitions_fatal_or_ok processOneTaskDefs processAllTaskDefs with
    hok | ⟨m, hm⟩
  · exfalso
    obtain ⟨h1, h2, h3⟩ := validateTaskDefinitions_ok_then _ _ hok
    rcases h with hempty | ⟨l, hl, hbad⟩
    · exact h3 hempty
    · rcases hbad with ⟨d, hd, hne⟩ | hdup
      · rcases hl with rfl | rfl
        · exact hne (((validateTaskDefs_some_ok_iff l _).mp h1).1 d hd)
        · exact hne (((validateTaskDefs_some_ok_iff l _).mp h2).1 d hd)
      · rcases hl with rfl | rfl
        · exact hdup ((validateTaskDefs_some_ok_iff l _).mp h1).2
        · exact hdup ((validateTaskDefs_some_ok_iff l _).mp h2).2
  · exact ⟨m, by unfold processStreamEvent; rw [hm]⟩

/-- C10 witness: both lists undefined. -/
theorem C10_processStreamEvent_rejects_fatally_witness :
    ∃ msg, processStreamEvent none none = .rejectedBeforeBatch (.fatal msg) :=
  C10_processStreamEvent_rejects_fatally none none (.inl ⟨rfl, rfl⟩)

/-- C3: for every save of a batch's state against a fixed table state, a batch not
previously saved (`previouslySaved` is `false` or `undefined`) first issues a
conditional insert guarded by `attribute_not_exists` on both key attributes, a
previously saved batch first issues a conditional update guarded by
`attribute_exists` on both key attributes; on a conditional-check-failed error the
codec switches to the other mode and retries exactly once, after which the save
succeeds (so at most two writes are ever issued). -/
theorem C3_saveBatchState_protocol (previouslySaved : Option Bool) (itemExists : Bool)
    (fuel : Nat) (hfuel : 2 ≤ fuel) :
    (saveBatchStateToDynamoDB previouslySaved itemExists fuel).1.head?
        = some ⟨firstSaveMode previouslySaved, conditionOfMode (firstSaveMode previouslySaved)⟩ ∧
      (saveBatchStateToDynamoDB previouslySaved itemExists fuel).2 = true ∧
      (saveBatchStateToDynamoDB previouslySaved itemExists fuel).1.length ≤ 2 ∧
      (conditionHolds itemExists (conditionOfMode (firstSaveMode previouslySaved)) = false →
        (saveBatchStateToDynamoDB previouslySaved itemExists fuel).1
          = [⟨firstSaveMode previouslySaved, conditionOfMode (firstSaveMode previouslySaved)⟩,
              ⟨otherMode (firstSaveMode previouslySaved),
                conditionOfMode (otherMode (firstSaveMode previouslySaved))⟩]) := by
  obtain ⟨k, rfl⟩ : ∃ k, fuel = k + 2 := ⟨fuel - 2, by omega⟩
  unfold saveBatchStateToDynamoDB firstSaveMode
  by_cases hp : previouslySaved = some true <;> cases itemExists <;>
    simp [hp, runBatchStateWrite, conditionHolds, conditionOfMode, otherMode]

/-- C3 witness: a never-saved batch against a table that already has the item:
insert, conditional-check failure, one retry as update. -/
theorem C3_saveBatchState_protocol_witness :
    (saveBatchStateToDynamoDB none true 2).1.head?
        = some ⟨SaveMode.insert, conditionOfMode SaveMode.insert⟩ ∧
      (saveBatchStateToDynamoDB none true 2).2 = true ∧
      (saveBatchStateToDynamoDB none true 2).1.length ≤ 2 ∧
      (conditionHolds true (conditionOfMode SaveMode.insert) = false →
        (saveBatchStateToDynamoDB none true 2).1
          = [⟨SaveMode.insert, conditionOfMode SaveMode.insert⟩,
              ⟨otherMode SaveMode.insert, conditionOfMode (otherMode SaveMode.insert)⟩]) :=
  C3_saveBatchState_protocol none true 2 (by norm_num)

/-- C8 (counterexample): the claim says the load projection contains `batchState`;
the actual `ProjectionExpression` of `loadBatchStateFromDynamoDB` does not project
it. -/
theorem C8_counterexample :
    "batchState" ∉ loadBatchStateGetRequest.projectionExpression := by decide

/-- C8 (amended): loading prior batch state issues a strongly-consistent read whose
projection contains exactly the two key attributes plus `messageStates`,
`rejectedMessageStates` and `unusableRecordStates` (but not `batchState`), and a
missing item means no prior state: `previouslySaved` is set to `false` and no prior
state is restored, so the batch proceeds with fresh task trees. -/
theorem C8_loadBatchState_request (itemFound : Bool) :
    loadBatchStateGetRequest.consistentRead = true ∧
      loadBatchStateGetRequest.projectionExpression
        = ["streamConsumerId", "shardOrEventID", "messageStates", "rejectedMessageStates",
            "unusableRecordStates"] ∧
      (loadBatchStateFromDynamoDB itemFound).previouslySaved = some itemFound ∧
      ((loadBatchStateFromDynamoDB itemFound).priorStateRestored = true ↔ itemFound = true) := by
  cases itemFound <;> exact ⟨rfl, rfl, rfl, Iff.rfl⟩

/-- A batch that is not fully finalised never resolves through the wrap-up. -/
theorem finaliseWrapUp_ne_resolved (outcomes : Option (List Outcome)) (taskError : Option Err)
    (processOutcomes : List Outcome) :
    finaliseWrapUp outcomes taskError processOutcomes false ≠ .resolvedFullyFinalised := by
  intro h
  unfold finaliseWrapUp at h
  split at h
  · cases h
  · simp only [Bool.not_false, if_true] at h
    split at h
    · cases h
    · split at h
      · cases h
      · cases h

/-- C1 (counterexample): at a concrete input with both a finalise-phase failure and
a `FinalisedError` among the processing outcomes, the code re-throws the finalise
failure (it checks finalising failures before anything else), whereas the claim's
cascade promotes the `FinalisedError` to a `FatalError` first — so the claim's
ordering is false on the code. -/
theorem C1_counterexample :
    finaliseBatch (.completed [.failure ⟨.timeoutError, 5⟩]) [.failure ⟨.finalisedError, 7⟩] false
        = .rejectedWith ⟨.timeoutError, 5⟩ ∧
      claimedFinaliseDecision (.completed [.failure ⟨.timeoutError, 5⟩])
          [.failure ⟨.finalisedError, 7⟩] false
        = .rejectedWith ⟨.fatalError, 7⟩ ∧
      FinaliseResult.rejectedWith ⟨ErrorKind.timeoutError, 5⟩
        ≠ FinaliseResult.rejectedWith ⟨ErrorKind.fatalError, 7⟩ :=
  ⟨rfl, rfl, by decide⟩

/-- C1 (amended): after the finalise race settles, a finalise-phase failure is
re-thrown first (even when the batch is fully finalised); otherwise, when the batch
is not fully finalised, a `FinalisedError` among the processing outcomes is
promoted to a `FatalError` and thrown, else the first process-phase failure is
re-thrown, else a generic "still incomplete" error is thrown; a race rejection is
re-thrown as is; and every invocation either resolves with a fully finalised batch
or rejects. -/
theorem C1_finaliseBatch_replay_policy (race : FinaliseRace) (processOutcomes : List Outcome)
    (fullyFinalised : Bool) :
    finaliseBatch race processOutcomes fullyFinalised
        = amendedFinaliseDecision race processOutcomes fullyFinalised ∧
      (finaliseBatch race processOutcomes fullyFinalised = .resolvedFullyFinalised →
        fullyFinalised = true) := by
  constructor
  · cases race with
    | rejected e => rfl
    | completed outcomes =>
      show finaliseWrapUp (some outcomes) none processOutcomes fullyFinalised = _
      unfold finaliseWrapUp amendedFinaliseDecision
      cases hf : findFailure outcomes <;> cases fullyFinalised <;> simp [hf]
    | completedNonArray taskError =>
      show finaliseWrapUp none taskError processOutcomes fullyFinalised = _
      unfold finaliseWrapUp amendedFinaliseDecision
      cases fullyFinalised <;> simp [findFailure]
  · cases fullyFinalised
    · intro h
      exfalso
      cases race with
      | rejected e => cases h
      | completed outcomes => exact finaliseWrapUp_ne_resolved (some outcomes) none processOutcomes h
      | completedNonArray taskError => exact finaliseWrapUp_ne_resolved none taskError processOutcomes h
    · intro _
      rfl

/-- C1 witness: an empty completed race over an empty set of processing outcomes on
a fully finalised batch. -/
theorem C1_finaliseBatch_replay_policy_witness :
    (finaliseBatch (.completed []) [] true = amendedFinaliseDecision (.completed []) [] true) ∧
      (finaliseBatch (.completed []) [] true = .resolvedFullyFinalised → true = true) :=
  C1_finaliseBatch_replay_policy (.completed []) [] true

/-- The chain-advancement lemma behind C2, generalised over the start position:
whenever position `i + j + 1` was started from position `i`, its predecessor
`i + j` was started, the chain was not cancelled at the predecessor's check, and
every initially-incomplete process-one task of the predecessor was fully finalised
after its execution settled. -/
theorem executeProcessOneTasks_mem_succ (cancelled : Nat → Bool) :
    ∀ (chain : List ChainedMessage) (i j : Nat),
      (i + j + 1) ∈ executeProcessOneTasks cancelled chain i →
      (i + j) ∈ executeProcessOneTasks cancelled chain i ∧ cancelled (i + j) = false ∧
        ∃ m, chain.get? j = some m ∧
          (incompleteTasks m).all (fun t => t.fullyFinalisedAfter) = true := by
  intro chain
  induction chain with
  | nil => intro i j h; simp [executeProcessOneTasks] at h
  | cons m rest ih =>
    intro i j h
    simp only [executeProcessOneTasks] at h
    rcases List.mem_cons.mp h with heq | htail
    · exact absurd heq (by omega)
    · cases rest with
      | nil => simp at htail
      | cons m2 rest2 =>
        by_cases hc :
            (!cancelled i && (incompleteTasks m).all fun t => t.fullyFinalisedAfter) = true
        · rw [if_pos hc] at htail
          rw [Bool.and_eq_true, Bool.not_eq_true'] at hc
          cases j with
          | zero =>
            exact ⟨List.mem_cons_self _ _, hc.1, m, rfl, hc.2⟩
          | succ j0 =>
            have harith : i + (j0 + 1) + 1 = (i + 1) + j0 + 1 := by omega
            rw [harith] at htail
            obtain ⟨hmem, hcanc, mm, hget, hall2⟩ := ih (i + 1) j0 htail
            have harith2 : i + (j0 + 1) = (i + 1) + j0 := by omega
            refine ⟨?_, by rw [harith2]; exact hcanc, mm, by simpa using hget, hall2⟩
            simp only [executeProcessOneTasks]
            apply List.mem_cons_of_mem
            rw [if_pos (by rw [Bool.and_eq_true, Bool.not_eq_true']; exact hc)]
            rw [harith2]
            exact hmem
        · rw [if_neg hc] at htail
          cases htail

/-- C2: along a key chain (`m2 = nextMessage of m1` being consecutive chain
positions), `executeProcessOneTasks` is invoked on position `j + 1` only if it was
invoked on position `j`, the chain had not been cancelled at position `j`'s
next-message check, and every initially-incomplete process-one task of position `j`
was fully finalised after its execution settled — so `m2`'s process-one tasks are
not started in this invocation otherwise. -/
theorem C2_nextMessage_gating (cancelled : Nat → Bool) (chain : List ChainedMessage) (j : Nat)
    (h : (j + 1) ∈ executeProcessOneTasks cancelled chain 0) :
    j ∈ executeProcessOneTasks cancelled chain 0 ∧ cancelled j = false ∧
      ∃ m, chain.get? j = some m ∧
        (incompleteTasks m).all (fun t => t.fullyFinalisedAfter) = true := by
  have h0 : (0 + j + 1) ∈ executeProcessOneTasks cancelled chain 0 := by
    simpa [Nat.zero_add] using h
  have h1 := executeProcessOneTasks_mem_succ cancelled chain 0 j h0
  simpa [Nat.zero_add] using h1

theorem compareCharLists_trichotomy :
    ∀ l1 l2 : List Char,
      compareCharLists l1 l2 = -1 ∨ compareCharLists l1 l2 = 0 ∨ compareCharLists l1 l2 = 1 := by
  intro l1
  induction l1 with
  | nil => intro l2; cases l2 <;> simp [compareCharLists]
  | cons c1 r1 ih =>
    intro l2
    cases l2 with
    | nil => simp [compareCharLists]
    | cons c2 r2 =>
      simp only [compareCharLists]
      split_ifs with h1 h2
      · simp
      · simp
      · exact ih r2

theorem compareStrings_trichotomy (s1 s2 : String) :
    compareStrings s1 s2 = -1 ∨ compareStrings s1 s2 = 0 ∨ compareStrings s1 s2 = 1 :=
  compareCharLists_trichotomy s1.data s2.data

/-- On equal-length part lists the source loop and the claim's loop agree. -/
theorem comparePartsLoop_eq_claimed :
    ∀ l1 l2 : List SeqNoPart, l1.length = l2.length →
      comparePartsLoop l1 l2 = claimedCompareLoop l1 l2 := by
  intro l1
  induction l1 with
  | nil =>
    intro l2 h
    cases l2 with
    | nil => rfl
    | cons p r => simp at h
  | cons p1 r1 ih =>
    intro l2 h
    cases l2 with
    | nil => simp at h
    | cons p2 r2 =>
      have hr : r1.length = r2.length := by simpa using h
      by_cases h1 : compareStrings p1.key p2.key ≠ 0
      · simp [comparePartsLoop, claimedCompareLoop, h1]
      · by_cases h2 : p1.sortable.map SortableJ.sortType ≠ p2.sortable.map SortableJ.sortType
        · simp [comparePartsLoop, claimedCompareLoop, h1, h2]
        · cases horelse : p1.sortable.orElse fun _ => p2.sortable with
          | none => simp [comparePartsLoop, claimedCompareLoop, h1, h2, horelse]
          | some sortable =>
            cases hcmp : sortable.compare with
            | none => simp [comparePartsLoop, claimedCompareLoop, h1, h2, horelse, hcmp]
            | some cmp =>
              by_cases h3 : cmp p1.value p2.value < 0
              · simp [comparePartsLoop, claimedCompareLoop, h1, h2, horelse, hcmp, h3]
              · by_cases h4 : cmp p1.value p2.value > 0
                · simp [comparePartsLoop, claimedCompareLoop, h1, h2, horelse, hcmp, h3, h4]
                · simp [comparePartsLoop, claimedCompareLoop, h1, h2, horelse, hcmp, h3, h4,
                    ih r2 hr]

/-- Every successful answer of the source loop is -1, 0 or +1. -/
theorem comparePartsLoop_ok_range :
    ∀ l1 l2 : List SeqNoPart, ∀ r : Int,
      comparePartsLoop l1 l2 = .ok r → r = -1 ∨ r = 0 ∨ r = 1 := by
  intro l1
  induction l1 with
  | nil =>
    intro l2 r h
    cases l2 with
    | nil => simp [comparePartsLoop] at h; omega
    | cons p2 r2 => simp [comparePartsLoop] at h; omega
  | cons p1 r1 ih =>
    intro l2 r h
    cases l2 with
    | nil => simp [comparePartsLoop] at h; omega
    | cons p2 r2 =>
      by_cases h1 : compareStrings p1.key p2.key ≠ 0
      · simp [comparePartsLoop, h1] at h
        rcases compareStrings_trichotomy p1.key p2.key with hk | hk | hk <;> rw [hk] at h <;>
          omega
      · by_cases h2 : p1.sortable.map SortableJ.sortType ≠ p2.sortable.map SortableJ.sortType
        · simp [comparePartsLoop, h1, h2] at h
        · cases horelse : p1.sortable.orElse fun _ => p2.sortable with
          | none => simp [comparePartsLoop, h1, h2, horelse] at h
          | some sortable =>
            cases hcmp : sortable.compare with
            | none => simp [comparePartsLoop, h1, h2, horelse, hcmp] at h
            | some cmp =>
              by_cases h3 : cmp p1.value p2.value < 0
              · simp [comparePartsLoop, h1, h2, horelse, hcmp, h3] at h
                omega
              · by_cases h4 : cmp p1.value p2.value > 0
                · simp [comparePartsLoop, h1, h2, horelse, hcmp, h3, h4] at h
                  omega
                · simp [comparePartsLoop, h1, h2, horelse, hcmp, h3, h4] at h
                  exact ih r2 r h

/-- C5 (counterexample): with the same keys, one part named "a" versus two parts
named "b" and "c", the code's length check fires first and sorts message 1 after
message 2 (+1), while the claim's ordered steps compare the ordinal-0 part-key
names first and yield -1. -/
theorem C5_counterexample :
    compareSameKeyMessages exMsg1 exMsg2 = .ok 1 ∧
      claimedCompareSameKeyMessages exMsg1 exMsg2 = .ok (-1) ∧
      (Except.ok (1 : Int) : Except String Int) ≠ .ok (-1) :=
  ⟨by decide, by decide, by decide⟩

/-- C5 (amended): the same-key comparator fails hard on messages whose `keys`
differ; the part-count check precedes every per-ordinal comparison, sorting the
message with fewer sequence-number parts after the other; equal-length messages are
compared ordinal by ordinal — part-key mismatches break the tie by part-key name,
a sort-kind disagreement (or missing compare function) fails hard, and values are
compared with the sortable's compare function; and every successful result is -1,
0 or +1. -/
theorem C5_compareSameKeyMessages_contract :
    (∀ s1 s2 : SequencedMsgState,
        compareSameKeyMessages s1 s2 = amendedCompareSameKeyMessages s1 s2) ∧
      ∀ s1 s2 : SequencedMsgState, ∀ r : Int,
        compareSameKeyMessages s1 s2 = .ok r → r = -1 ∨ r = 0 ∨ r = 1 := by
  constructor
  · intro s1 s2
    simp only [compareSameKeyMessages, amendedCompareSameKeyMessages]
    by_cases hkeys : s1.keys ≠ s2.keys
    · simp [hkeys]
    · rcases Nat.lt_trichotomy s1.seqNos.length s2.seqNos.length with hlt | heq | hgt
      · simp [hkeys, hlt, Nat.max_eq_right hlt.le]
      · simp [hkeys, heq, comparePartsLoop_eq_claimed _ _ heq]
      · simp [hkeys, Nat.max_eq_left hgt.le, hgt, Nat.not_lt.mpr hgt.le]
  · intro s1 s2 r h
    simp only [compareSameKeyMessages] at h
    split at h
    · cases h
    · split at h
      · simp only [Except.ok.injEq] at h
        omega
      · split at h
        · simp only [Except.ok.injEq] at h
          omega
        · exact comparePartsLoop_ok_range _ _ r h

/-- C5 witness: a message compared with itself agrees with the amended comparator
and returns 0. -/
theorem C5_compareSameKeyMessages_contract_witness :
    compareSameKeyMessages exMsg1 exMsg1 = amendedCompareSameKeyMessages exMsg1 exMsg1 ∧
      ((0 : Int) = -1 ∨ (0 : Int) = 0 ∨ (0 : Int) = 1) :=
  ⟨C5_compareSameKeyMessages_contract.1 exMsg1 exMsg1,
    C5_compareSameKeyMessages_contract.2 exMsg1 exMsg1 0 (by decide)⟩

section SequencingLemmas

theorem mem_linkGroupPrev_fst :
    ∀ (s : List SeqMsg) (pv : Option SeqMsg) (x : SeqMsg × Option SeqMsg),
      x ∈ linkGroupPrev pv s → x.1 ∈ s := by
  intro s
  induction s with
  | nil => intro pv x h; cases h
  | cons a rest ih =>
    intro pv x h
    rcases List.mem_cons.mp h with rfl | h2
    · exact List.mem_cons_self _ _
    · exact List.mem_cons_of_mem _ (ih (some a) x h2)

/-- Within one linked segment: the head's written prev-link is the incoming `pv`,
every other member's is its predecessor. -/
theorem find?_linkGroupPrev :
    ∀ (s : List SeqMsg) (pv : Option SeqMsg) (m : SeqMsg), m ∈ s →
      (s.head? = some m ∧ (linkGroupPrev pv s).find? (fun p => p.1 == m) = some (m, pv)) ∨
        (s.head? ≠ some m ∧
          ∃ a, (linkGroupPrev pv s).find? (fun p => p.1 == m) = some (m, some a)) := by
  intro s
  induction s with
  | nil => intro pv m hm; cases hm
  | cons a rest ih =>
    intro pv m hm
    by_cases heq : a = m
    · subst heq
      left
      refine ⟨rfl, ?_⟩
      rw [linkGroupPrev, List.find?_cons_of_pos _ (by simp)]
    · right
      have hm2 : m ∈ rest := by
        rcases List.mem_cons.mp hm with h | h
        · exact absurd h.symm heq
        · exact h
      refine ⟨by simp [heq], ?_⟩
      rw [linkGroupPrev, List.find?_cons_of_neg _ (by simp [heq])]
      rcases ih (some a) m hm2 with ⟨h1, h2⟩ | ⟨h1, b, h2⟩
      · exact ⟨a, h2⟩
      · exact ⟨b, h2⟩

theorem consecutive_mem_linkGroupNext :
    ∀ (s : List SeqMsg) (i : Nat) (a b : SeqMsg),
      s.get? i = some a → s.get? (i + 1) = some b → (a, some b) ∈ linkGroupNext s := by
  intro s
  induction s with
  | nil => intro i a b ha hb; simp at ha
  | cons x rest ih =>
    intro i a b ha hb
    cases rest with
    | nil =>
      rcases i with _ | i0 <;> simp at hb
    | cons y rest2 =>
      cases i with
      | zero =>
        simp only [List.get?] at ha hb
        injection ha with ha
        injection hb with hb
        subst ha
        subst hb
        exact List.mem_cons_self _ _
      | succ i0 =>
        simp only [List.get?] at ha hb
        exact List.mem_cons_of_mem _ (ih i0 a b ha hb)

theorem consecutive_mem_linkGroupPrev :
    ∀ (s : List SeqMsg) (pv : Option SeqMsg) (i : Nat) (a b : SeqMsg),
      s.get? i = some a → s.get? (i + 1) = some b → (b, some a) ∈ linkGroupPrev pv s := by
  intro s
  induction s with
  | nil => intro pv i a b ha hb; simp at ha
  | cons x rest ih =>
    intro pv i a b ha hb
    cases i with
    | zero =>
      simp only [List.get?] at ha hb
      injection ha with ha
      subst ha
      cases rest with
      | nil => simp at hb
      | cons y rest2 =>
        simp only [List.get?] at hb
        injection hb with hb
        subst hb
        exact List.mem_cons_of_mem _ (List.mem_cons_self _ _)
    | succ i0 =>
      simp only [List.get?] at ha hb
      exact List.mem_cons_of_mem _ (ih (some x) i0 a b ha hb)

theorem groupKey_of_mem_group (messages : List SeqMsg) (k : String) (x : SeqMsg)
    (hx : x ∈ groupOf messages k) : groupKeyOf x = k := by
  have := (List.mem_filter.mp hx).2
  simpa using this

theorem mem_group_self (messages : List SeqMsg) (m : SeqMsg) (hm : m ∈ messages) :
    m ∈ groupOf messages (groupKeyOf m) :=
  List.mem_filter.mpr ⟨hm, by simp⟩

theorem mem_sorted_group_iff (messages : List SeqMsg) (cmp : SeqMsg → SeqMsg → Int)
    (k : String) (x : SeqMsg) :
    x ∈ sortJS cmp (groupOf messages k) ↔ x ∈ groupOf messages k :=
  (List.perm_insertionSort _ _).mem_iff

theorem segment_entry_ne (messages : List SeqMsg) (cmp : SeqMsg → SeqMsg → Int)
    (k : String) (m : SeqMsg) (hk : k ≠ groupKeyOf m) :
    ∀ x ∈ linkGroupPrev none (sortJS cmp (groupOf messages k)),
      ¬((fun p => p.1 == m) x = true) := by
  intro x hx
  have h1 : x.1 ∈ sortJS cmp (groupOf messages k) := mem_linkGroupPrev_fst _ _ _ hx
  have h2 : x.1 ∈ groupOf messages k := (mem_sorted_group_iff messages cmp k x.1).mp h1
  have h3 := groupKey_of_mem_group messages k x.1 h2
  simp only [beq_iff_eq]
  intro hxm
  rw [hxm] at h3
  exact hk h3.symm

/-- The prev-link lookup for a message reduces to the lookup within the segment of
the message's own group. -/
theorem find?_prevLinks_segments (messages : List SeqMsg) (cmp : SeqMsg → SeqMsg → Int)
    (m : SeqMsg) :
    ∀ keys : List String, keys.Nodup → groupKeyOf m ∈ keys →
      ((keys.map fun k => linkGroupPrev none (sortJS cmp (groupOf messages k))).flatten).find?
          (fun p => p.1 == m)
        = (linkGroupPrev none (sortJS cmp (groupOf messages (groupKeyOf m)))).find?
            (fun p => p.1 == m) := by
  intro keys
  induction keys with
  | nil => intro _ h; cases h
  | cons k rest ih =>
    intro hnd hmem
    rw [List.map_cons, List.flatten_cons, List.find?_append]
    by_cases hk : k = groupKeyOf m
    · subst hk
      cases hfind : (linkGroupPrev none (sortJS cmp (groupOf messages (groupKeyOf m)))).find?
          (fun p => p.1 == m) with
      | some v => rfl
      | none =>
        have hrest : ((rest.map fun k2 =>
            linkGroupPrev none (sortJS cmp (groupOf messages k2))).flatten).find?
              (fun p => p.1 == m) = none := by
          apply List.find?_eq_none.mpr
          intro x hx
          obtain ⟨seg, hseg, hxseg⟩ := List.mem_flatten.mp hx
          obtain ⟨k2, hk2, rfl⟩ := List.mem_map.mp hseg
          have hk2ne : k2 ≠ groupKeyOf m := by
            intro hc
            rw [hc] at hk2
            exact (List.nodup_cons.mp hnd).1 hk2
          exact segment_entry_ne messages cmp k2 m hk2ne x hxseg
        rw [hrest]
        rfl
    · have hnone : (linkGroupPrev none (sortJS cmp (groupOf messages k))).find?
          (fun p => p.1 == m) = none :=
        List.find?_eq_none.mpr (segment_entry_ne messages cmp k m hk)
      rw [hnone]
      have hmem2 : groupKeyOf m ∈ rest := by
        rcases List.mem_cons.mp hmem with h | h
        · exact absurd h.symm hk
        · exact h
      rw [ih (List.nodup_cons.mp hnd).2 hmem2]
      rfl

theorem head?_mem_of_eq {l : List SeqMsg} {m : SeqMsg} (h : l.head? = some m) : m ∈ l := by
  cases l with
  | nil => cases h
  | cons a rest =>
    injection h with h
    rw [← h]
    exact List.mem_cons_self _ _

/-- `sequenceMessages` for two-or-more messages with sequencing required and
per-key sequencing enabled, unfolded. -/
theorem sequenceMessages_perKey_eq (messages : List SeqMsg) (cmp : SeqMsg → SeqMsg → Int)
    (hlen : 2 ≤ messages.length) :
    sequenceMessages messages cmp true true =
      { firstMessagesToProcess :=
          ((distinctGroupKeys messages).map fun k => sortJS cmp (groupOf messages k)).filterMap
            List.head?,
        prevLinks := ((distinctGroupKeys messages).map fun k =>
          linkGroupPrev none (sortJS cmp (groupOf messages k))).flatten,
        nextLinks := ((distinctGroupKeys messages).map fun k =>
          linkGroupNext (sortJS cmp (groupOf messages k))).flatten } := by
  unfold sequenceMessages
  rw [if_neg (by simp [Nat.not_lt.mpr hlen])]
  simp [List.map_map, Function.comp_def]

end SequencingLemmas

/-- The Prop contract that C6 asserts of `sequenceMessages` with per-key
sequencing: messages are grouped by their joined key string, each group is sorted
with the comparator, the sorted groups are linked into chains via
`prevMessage`/`nextMessage`, and `firstMessagesToProcess` is exactly the heads of
all chains, which are exactly the messages with no `prevMessage`. -/
def sequencedPerKeyContract (messages : List SeqMsg) (cmp : SeqMsg → SeqMsg → Int) : Prop :=
  (∀ m ∈ messages,
      m ∈ groupOf messages (groupKeyOf m) ∧ groupKeyOf m ∈ distinctGroupKeys messages) ∧
    (∀ k ∈ distinctGroupKeys messages,
      (sortJS cmp (groupOf messages k)).Perm (groupOf messages k)) ∧
    (∀ k ∈ distinctGroupKeys messages, ∀ i : Nat, ∀ a b : SeqMsg,
      (sortJS cmp (groupOf messages k)).get? i = some a →
      (sortJS cmp (groupOf messages k)).get? (i + 1) = some b →
      (a, some b) ∈ (sequenceMessages messages cmp true true).nextLinks ∧
        (b, some a) ∈ (sequenceMessages messages cmp true true).prevLinks) ∧
    (∀ m : SeqMsg,
      m ∈ (sequenceMessages messages cmp true true).firstMessagesToProcess ↔
        ∃ k ∈ distinctGroupKeys messages,
          (sortJS cmp (groupOf messages k)).head? = some m) ∧
    (∀ m ∈ messages,
      (m ∈ (sequenceMessages messages cmp true true).firstMessagesToProcess ↔
        hasNoPrevMessage (sequenceMessages messages cmp true true) m = true))

theorem mem_firstMessages_iff (messages : List SeqMsg) (cmp : SeqMsg → SeqMsg → Int)
    (hlen : 2 ≤ messages.length) (m : SeqMsg) :
    m ∈ (sequenceMessages messages cmp true true).firstMessagesToProcess ↔
      ∃ k ∈ distinctGroupKeys messages, (sortJS cmp (groupOf messages k)).head? = some m := by
  rw [sequenceMessages_perKey_eq messages cmp hlen]
  simp only [List.mem_filterMap, List.mem_map]
  constructor
  · rintro ⟨s, ⟨k, hk, rfl⟩, hh⟩
    exact ⟨k, hk, hh⟩
  · rintro ⟨k, hk, hh⟩
    exact ⟨_, ⟨k, hk, rfl⟩, hh⟩

theorem hasNoPrevMessage_iff (messages : List SeqMsg) (cmp : SeqMsg → SeqMsg → Int)
    (hlen : 2 ≤ messages.length) (m : SeqMsg) (hm : m ∈ messages) :
    hasNoPrevMessage (sequenceMessages messages cmp true true) m = true ↔
      (sortJS cmp (groupOf messages (groupKeyOf m))).head? = some m := by
  rw [sequenceMessages_perKey_eq messages cmp hlen]
  unfold hasNoPrevMessage
  have hkeysNd : (distinctGroupKeys messages).Nodup := List.nodup_dedup _
  have hkmem : groupKeyOf m ∈ distinctGroupKeys messages := by
    unfold distinctGroupKeys
    rw [List.mem_dedup]
    exact List.mem_map_of_mem _ hm
  dsimp only
  rw [find?_prevLinks_segments messages cmp m _ hkeysNd hkmem]
  have hmsort : m ∈ sortJS cmp (groupOf messages (groupKeyOf m)) :=
    (mem_sorted_group_iff _ _ _ _).mpr (mem_group_self _ _ hm)
  rcases find?_linkGroupPrev _ none m hmsort with ⟨hh, hf⟩ | ⟨hh, a, hf⟩
  · rw [hf]
    simp [hh]
  · rw [hf]
    simp [hh]

theorem heads_iff_own_group (messages : List SeqMsg) (cmp : SeqMsg → SeqMsg → Int)
    (m : SeqMsg) (hm : m ∈ messages) :
    (∃ k ∈ distinctGroupKeys messages, (sortJS cmp (groupOf messages k)).head? = some m) ↔
      (sortJS cmp (groupOf messages (groupKeyOf m))).head? = some m := by
  constructor
  · rintro ⟨k, hk, hh⟩
    have hmem : m ∈ sortJS cmp (groupOf messages k) := head?_mem_of_eq hh
    have hkey : groupKeyOf m = k :=
      groupKey_of_mem_group _ _ _ ((mem_sorted_group_iff _ _ _ _).mp hmem)
    rw [hkey]
    exact hh
  · intro hh
    refine ⟨groupKeyOf m, ?_, hh⟩
    unfold distinctGroupKeys
    rw [List.mem_dedup]
    exact List.mem_map_of_mem _ hm

/-- C6: for every batch of two or more (distinct) extracted messages, sequencing
with sequencing required and per-key sequencing enabled groups the messages by
their joined key string, sorts each group with the same-key comparator, links each
sorted group into a chain via `prevMessage`/`nextMessage`, and returns exactly the
heads of all chains — the messages with no `prevMessage` — as
`firstMessagesToProcess` (assigned by `extractAndSequenceMessages`). -/
theorem C6_sequenceMessages_perKey (messages : List SeqMsg) (cmp : SeqMsg → SeqMsg → Int)
    (hlen : 2 ≤ messages.length) (_hnd : messages.Nodup) :
    sequencedPerKeyContract messages cmp := by
  refine ⟨?_, ?_, ?_, ?_, ?_⟩
  · intro m hm
    refine ⟨mem_group_self _ _ hm, ?_⟩
    unfold distinctGroupKeys
    rw [List.mem_dedup]
    exact List.mem_map_of_mem _ hm
  · intro k _
    exact List.perm_insertionSort _ _
  · intro k hk i a b ha hb
    rw [sequenceMessages_perKey_eq messages cmp hlen]
    constructor
    · exact List.mem_flatten.mpr
        ⟨linkGroupNext (sortJS cmp (groupOf messages k)),
          List.mem_map_of_mem _ hk, consecutive_mem_linkGroupNext _ i a b ha hb⟩
    · exact List.mem_flatten.mpr
        ⟨linkGroupPrev none (sortJS cmp (groupOf messages k)),
          List.mem_map_of_mem _ hk, consecutive_mem_linkGroupPrev _ none i a b ha hb⟩
  · intro m
    exact mem_firstMessages_iff messages cmp hlen m
  · intro m hm
    rw [mem_firstMessages_iff messages cmp hlen m, hasNoPrevMessage_iff messages cmp hlen m hm]
    exact heads_iff_own_group messages cmp m hm

/-- C6 witness messages: two messages keyed "A" (out of order) and one keyed "B". -/
def c6Msgs : List SeqMsg := [⟨2, "A", true⟩, ⟨1, "A", true⟩, ⟨3, "B", true⟩]

/-- C6 witness comparator: three-way comparison of the identity tags. -/
def c6Cmp : SeqMsg → SeqMsg → Int := fun a b => intCompare (a.tag : Int) (b.tag : Int)

/-- C6 witness: the contract holds for the concrete three-message batch. -/
theorem C6_sequenceMessages_perKey_witness :
    2 ≤ c6Msgs.length ∧ c6Msgs.Nodup ∧ sequencedPerKeyContract c6Msgs c6Cmp :=
  ⟨by decide, by decide, C6_sequenceMessages_perKey c6Msgs c6Cmp (by decide) (by decide)⟩

section RestorationLemmas

theorem getState_setStateMaps_ne (states : MsgObj → Option MsgStateR) (m m' : MsgObj)
    (maps : TaskMaps4) (h : m' ≠ m) :
    getState (setStateMaps states m maps) m' = getState states m' := by
  unfold getState setStateMaps
  rw [if_neg h]

theorem getState_setStateMaps_self (states : MsgObj → Option MsgStateR) (m : MsgObj)
    (maps : TaskMaps4) :
    getState (setStateMaps states m maps) m
      = (getState states m).map fun s => { s with maps := maps } := by
  unfold getState setStateMaps
  rw [if_pos rfl]

/-- The three shapes an active-restoration step can take. -/
theorem restoreActiveMessageStep_shape (A B : List (String × MsgStateR))
    (C D : List (MsgObj × MsgStateR)) (b : BatchR) (x : MsgObj) :
    restoreActiveMessageStep A B C D b x = b ∨
      ∃ mp, restoreActiveMessageStep A B C D b x = { b with states := setStateMaps b.states x mp } ∨
        restoreActiveMessageStep A B C D b x
          = { messages := b.messages.erase x,
              rejectedMessages :=
                if b.rejectedMessages.contains x then b.rejectedMessages
                else b.rejectedMessages ++ [x],
              states := setStateMaps b.states x mp } := by
  cases hst : getState b.states x with
  | none => exact .inl (by simp [restoreActiveMessageStep, hst])
  | some currState =>
    simp only [restoreActiveMessageStep, hst]
    cases hprev : (lookupPrevState A C currState x).orElse fun _ =>
        lookupPrevState B D currState x with
    | none => exact .inl rfl
    | some prevState =>
      refine .inr ⟨prevState.maps, ?_⟩
      by_cases hrej : (lookupPrevState B D currState x).isSome = true
      · right
        rw [if_pos hrej]
        rfl
      · left
        rw [if_neg hrej]

/-- The two shapes a rejected-restoration step can take. -/
theorem restoreRejectedMessageStep_shape (A B : List (String × MsgStateR))
    (C D : List (MsgObj × MsgStateR)) (b : BatchR) (x : MsgObj) :
    restoreRejectedMessageStep A B C D b x = b ∨
      ∃ mp, restoreRejectedMessageStep A B C D b x
        = { b with states := setStateMaps b.states x mp } := by
  cases hst : getState b.states x with
  | none => exact .inl (by simp [restoreRejectedMessageStep, hst])
  | some currState =>
    simp only [restoreRejectedMessageStep, hst]
    cases hprev : (lookupPrevState B D currState x).orElse fun _ =>
        lookupPrevState A C currState x with
    | none => exact .inl rfl
    | some prevState => exact .inr ⟨prevState.maps, rfl⟩

theorem restoreActiveMessageStep_of_ne (A B : List (String × MsgStateR))
    (C D : List (MsgObj × MsgStateR)) (b : BatchR) (x m : MsgObj) (h : m ≠ x) :
    getState (restoreActiveMessageStep A B C D b x).states m = getState b.states m ∧
      (m ∈ (restoreActiveMessageStep A B C D b x).messages ↔ m ∈ b.messages) ∧
      (m ∈ (restoreActiveMessageStep A B C D b x).rejectedMessages ↔
        m ∈ b.rejectedMessages) := by
  rcases restoreActiveMessageStep_shape A B C D b x with hb | ⟨mp, hs | hmv⟩
  · rw [hb]
    exact ⟨rfl, Iff.rfl, Iff.rfl⟩
  · rw [hs]
    exact ⟨getState_setStateMaps_ne _ _ _ _ h, Iff.rfl, Iff.rfl⟩
  · rw [hmv]
    refine ⟨getState_setStateMaps_ne _ _ _ _ h, List.mem_erase_of_ne h, ?_⟩
    by_cases hc : b.rejectedMessages.contains x
    · rw [if_pos hc]
    · rw [if_neg hc]
      simp [h]

theorem restoreActiveMessageStep_nodup (A B : List (String × MsgStateR))
    (C D : List (MsgObj × MsgStateR)) (b : BatchR) (x : MsgObj)
    (h1 : b.messages.Nodup) (h2 : b.rejectedMessages.Nodup) :
    (restoreActiveMessageStep A B C D b x).messages.Nodup ∧
      (restoreActiveMessageStep A B C D b x).rejectedMessages.Nodup := by
  rcases restoreActiveMessageStep_shape A B C D b x with hb | ⟨mp, hs | hmv⟩
  · rw [hb]
    exact ⟨h1, h2⟩
  · rw [hs]
    exact ⟨h1, h2⟩
  · rw [hmv]
    refine ⟨h1.erase x, ?_⟩
    by_cases hc : b.rejectedMessages.contains x
    · rw [if_pos hc]
      exact h2
    · rw [if_neg hc]
      have hx : x ∉ b.rejectedMessages := by simpa using hc
      rw [List.nodup_append_comm]
      exact h2.cons hx

theorem restoreRejectedMessageStep_lists (A B : List (String × MsgStateR))
    (C D : List (MsgObj × MsgStateR)) (b : BatchR) (x : MsgObj) :
    (restoreRejectedMessageStep A B C D b x).messages = b.messages ∧
      (restoreRejectedMessageStep A B C D b x).rejectedMessages = b.rejectedMessages := by
  rcases restoreRejectedMessageStep_shape A B C D b x with hb | ⟨mp, hs⟩
  · rw [hb]
    exact ⟨rfl, rfl⟩
  · rw [hs]
    exact ⟨rfl, rfl⟩

theorem restoreRejectedMessageStep_of_ne (A B : List (String × MsgStateR))
    (C D : List (MsgObj × MsgStateR)) (b : BatchR) (x m : MsgObj) (h : m ≠ x) :
    getState (restoreRejectedMessageStep A B C D b x).states m = getState b.states m := by
  rcases restoreRejectedMessageStep_shape A B C D b x with hb | ⟨mp, hs⟩
  · rw [hb]
  · rw [hs]
    exact getState_setStateMaps_ne _ _ _ _ h

end RestorationLemmas

section RestorationFoldLemmas

theorem foldl_active_untouched (A B : List (String × MsgStateR))
    (C D : List (MsgObj × MsgStateR)) :
    ∀ (ms : List MsgObj) (b : BatchR) (m : MsgObj), m ∉ ms →
      getState ((ms.foldl (restoreActiveMessageStep A B C D) b)).states m
          = getState b.states m ∧
        (m ∈ (ms.foldl (restoreActiveMessageStep A B C D) b).messages ↔ m ∈ b.messages) ∧
        (m ∈ (ms.foldl (restoreActiveMessageStep A B C D) b).rejectedMessages ↔
          m ∈ b.rejectedMessages) := by
  intro ms
  induction ms with
  | nil => intro b m _; exact ⟨rfl, Iff.rfl, Iff.rfl⟩
  | cons x rest ih =>
    intro b m hm
    have hne : m ≠ x := fun hc => hm (hc ▸ List.mem_cons_self x rest)
    have hrest : m ∉ rest := fun hc => hm (List.mem_cons_of_mem _ hc)
    rw [List.foldl_cons]
    obtain ⟨hg, hm1, hr1⟩ := restoreActiveMessageStep_of_ne A B C D b x m hne
    obtain ⟨hg2, hm2, hr2⟩ := ih (restoreActiveMessageStep A B C D b x) m hrest
    exact ⟨hg2.trans hg, hm2.trans hm1, hr2.trans hr1⟩

theorem foldl_active_nodup (A B : List (String × MsgStateR))
    (C D : List (MsgObj × MsgStateR)) :
    ∀ (ms : List MsgObj) (b : BatchR), b.messages.Nodup → b.rejectedMessages.Nodup →
      (ms.foldl (restoreActiveMessageStep A B C D) b).messages.Nodup ∧
        (ms.foldl (restoreActiveMessageStep A B C D) b).rejectedMessages.Nodup := by
  intro ms
  induction ms with
  | nil => intro b h1 h2; exact ⟨h1, h2⟩
  | cons x rest ih =>
    intro b h1 h2
    rw [List.foldl_cons]
    obtain ⟨h1x, h2x⟩ := restoreActiveMessageStep_nodup A B C D b x h1 h2
    exact ih _ h1x h2x

theorem foldl_rejected_lists (A B : List (String × MsgStateR))
    (C D : List (MsgObj × MsgStateR)) :
    ∀ (ms : List MsgObj) (b : BatchR),
      (ms.foldl (restoreRejectedMessageStep A B C D) b).messages = b.messages ∧
        (ms.foldl (restoreRejectedMessageStep A B C D) b).rejectedMessages
          = b.rejectedMessages := by
  intro ms
  induction ms with
  | nil => intro b; exact ⟨rfl, rfl⟩
  | cons x rest ih =>
    intro b
    rw [List.foldl_cons]
    obtain ⟨e1, e2⟩ := restoreRejectedMessageStep_lists A B C D b x
    obtain ⟨f1, f2⟩ := ih (restoreRejectedMessageStep A B C D b x)
    exact ⟨f1.trans e1, f2.trans e2⟩

theorem foldl_rejected_untouched (A B : List (String × MsgStateR))
    (C D : List (MsgObj × MsgStateR)) :
    ∀ (ms : List MsgObj) (b : BatchR) (m : MsgObj), m ∉ ms →
      getState ((ms.foldl (restoreRejectedMessageStep A B C D) b)).states m
        = getState b.states m := by
  intro ms
  induction ms with
  | nil => intro b m _; rfl
  | cons x rest ih =>
    intro b m hm
    have hne : m ≠ x := fun hc => hm (hc ▸ List.mem_cons_self x rest)
    have hrest : m ∉ rest := fun hc => hm (List.mem_cons_of_mem _ hc)
    rw [List.foldl_cons]
    exact (ih _ m hrest).trans (restoreRejectedMessageStep_of_ne A B C D b x m hne)

theorem lookupPrevState_overlay (X : List (String × MsgStateR))
    (Y : List (MsgObj × MsgStateR)) (curr : MsgStateR) (o : Option MsgStateR) (m : MsgObj) :
    lookupPrevState X Y (overlayPrev curr o) m = lookupPrevState X Y curr m := by
  cases o <;> rfl

theorem overlayPrev_overlayPrev (curr : MsgStateR) (o : Option MsgStateR) (p : MsgStateR) :
    ({ overlayPrev curr o with maps := p.maps } : MsgStateR)
      = { curr with maps := p.maps } := by
  cases o <;> rfl

theorem restoreActiveMessageStep_self_effect (A B : List (String × MsgStateR))
    (C D : List (MsgObj × MsgStateR)) (b : BatchR) (m : MsgObj) (currState : MsgStateR)
    (hst : getState b.states m = some currState)
    (hmem : m ∈ b.messages) (hndM : b.messages.Nodup) (hnr : m ∉ b.rejectedMessages) :
    getState (restoreActiveMessageStep A B C D b m).states m
        = some (overlayPrev currState
            ((lookupPrevState A C currState m).orElse fun _ =>
              lookupPrevState B D currState m)) ∧
      (m ∈ (restoreActiveMessageStep A B C D b m).rejectedMessages ↔
        (lookupPrevState B D currState m).isSome = true) ∧
      (m ∈ (restoreActiveMessageStep A B C D b m).messages ↔
        lookupPrevState B D currState m = none) := by
  simp only [restoreActiveMessageStep, hst]
  cases hprev : (lookupPrevState A C currState m).orElse fun _ =>
      lookupPrevState B D currState m with
  | none =>
    have hpr : lookupPrevState B D currState m = none := by
      cases hx : lookupPrevState A C currState m with
      | none =>
        rw [hx] at hprev
        exact hprev
      | some v =>
        rw [hx] at hprev
        cases hprev
    refine ⟨by simpa [overlayPrev] using hst, ?_, ?_⟩
    · simp [hpr, hnr]
    · simp [hpr, hmem]
  | some prevState =>
    by_cases hrej : (lookupPrevState B D currState m).isSome = true
    · rw [if_pos hrej]
      have hc : b.rejectedMessages.contains m = false := by simpa using hnr
      refine ⟨?_, ?_, ?_⟩
      · rw [show (moveMessageToRejected b m).states = b.states from rfl,
          getState_setStateMaps_self, hst]
        rfl
      · simp [moveMessageToRejected, hc, hrej, hnr]
      · have herase : m ∉ b.messages.erase m := by
          rw [hndM.mem_erase_iff]
          simp
        have hne : lookupPrevState B D currState m ≠ none := by
          intro hcn
          rw [hcn] at hrej
          cases hrej
        simp [moveMessageToRejected, herase, hne]
    · rw [if_neg hrej]
      have hpr : lookupPrevState B D currState m = none := by
        cases hx : lookupPrevState B D currState m with
        | none => rfl
        | some v =>
          rw [hx] at hrej
          exact absurd rfl hrej
      refine ⟨?_, ?_, ?_⟩
      · rw [getState_setStateMaps_self, hst]
        rfl
      · simp [hpr, hnr]
      · simp [hpr, hmem]

theorem restoreRejectedMessageStep_self_effect (A B : List (String × MsgStateR))
    (C D : List (MsgObj × MsgStateR)) (b : BatchR) (m : MsgObj) (currState : MsgStateR)
    (hst : getState b.states m = some currState) :
    getState (restoreRejectedMessageStep A B C D b m).states m
      = some (overlayPrev currState
          ((lookupPrevState B D currState m).orElse fun _ =>
            lookupPrevState A C currState m)) := by
  simp only [restoreRejectedMessageStep, hst]
  cases hprev : (lookupPrevState B D currState m).orElse fun _ =>
      lookupPrevState A C currState m with
  | none => simpa [overlayPrev] using hst
  | some p =>
    rw [getState_setStateMaps_self, hst]
    rfl

theorem restoreFolds_effect (A B : List (String × MsgStateR))
    (C D : List (MsgObj × MsgStateR)) (b : BatchR)
    (hndM : b.messages.Nodup) (hndR : b.rejectedMessages.Nodup)
    (m : MsgObj) (hm : m ∈ b.messages) (hnr : m ∉ b.rejectedMessages)
    (currState : MsgStateR) (hst : getState b.states m = some currState) :
    (m ∈ (restoreFolds A B C D b).rejectedMessages ↔
        (lookupPrevState B D currState m).isSome = true) ∧
      (m ∈ (restoreFolds A B C D b).messages ↔
        lookupPrevState B D currState m = none) ∧
      getState (restoreFolds A B C D b).states m
        = some (overlayPrev currState
            ((lookupPrevState B D currState m).orElse fun _ =>
              lookupPrevState A C currState m)) := by
  obtain ⟨pre, post, hsplit⟩ := List.append_of_mem hm
  have hnd' : (pre ++ m :: post).Nodup := hsplit ▸ hndM
  have hd := List.nodup_append.mp hnd'
  have hmpre : m ∉ pre := fun hc => hd.2.2 hc (List.mem_cons_self _ _)
  have hmpost : m ∉ post := (List.nodup_cons.mp hd.2.1).1
  have hfold1 : b.messages.foldl (restoreActiveMessageStep A B C D) b
      = post.foldl (restoreActiveMessageStep A B C D)
          (restoreActiveMessageStep A B C D
            (pre.foldl (restoreActiveMessageStep A B C D) b) m) := by
    rw [hsplit, List.foldl_append, List.foldl_cons]
  obtain ⟨hbpS, hbpM, hbpR⟩ := foldl_active_untouched A B C D pre b m hmpre
  obtain ⟨hbpNdM, hbpNdR⟩ := foldl_active_nodup A B C D pre b hndM hndR
  have hstbp : getState (pre.foldl (restoreActiveMessageStep A B C D) b).states m
      = some currState := hbpS.trans hst
  have hmembp : m ∈ (pre.foldl (restoreActiveMessageStep A B C D) b).messages :=
    hbpM.mpr hm
  have hnrbp : m ∉ (pre.foldl (restoreActiveMessageStep A B C D) b).rejectedMessages :=
    fun hc => hnr (hbpR.mp hc)
  obtain ⟨hS, hR, hM⟩ := restoreActiveMessageStep_self_effect A B C D
    (pre.foldl (restoreActiveMessageStep A B C D) b) m currState hstbp hmembp hbpNdM hnrbp
  obtain ⟨hS2, hM2, hR2⟩ := foldl_active_untouched A B C D post
    (restoreActiveMessageStep A B C D (pre.foldl (restoreActiveMessageStep A B C D) b) m)
    m hmpost
  have hb1S : getState (b.messages.foldl (restoreActiveMessageStep A B C D) b).states m
      = some (overlayPrev currState
          ((lookupPrevState A C currState m).orElse fun _ =>
            lookupPrevState B D currState m)) := by
    rw [hfold1]; exact hS2.trans hS
  have hb1R : m ∈ (b.messages.foldl (restoreActiveMessageStep A B C D) b).rejectedMessages
      ↔ (lookupPrevState B D currState m).isSome = true := by
    rw [hfold1]; exact hR2.trans hR
  have hb1M : m ∈ (b.messages.foldl (restoreActiveMessageStep A B C D) b).messages
      ↔ lookupPrevState B D currState m = none := by
    rw [hfold1]; exact hM2.trans hM
  obtain ⟨hb1NdM, hb1NdR⟩ := foldl_active_nodup A B C D b.messages b hndM hndR
  have hrf : restoreFolds A B C D b
      = (b.messages.foldl (restoreActiveMessageStep A B C D) b).rejectedMessages.foldl
          (restoreRejectedMessageStep A B C D)
          (b.messages.foldl (restoreActiveMessageStep A B C D) b) := rfl
  obtain ⟨hl1, hl2⟩ := foldl_rejected_lists A B C D
    (b.messages.foldl (restoreActiveMessageStep A B C D) b).rejectedMessages
    (b.messages.foldl (restoreActiveMessageStep A B C D) b)
  refine ⟨?_, ?_, ?_⟩
  · rw [hrf, hl2]; exact hb1R
  · rw [hrf, hl1]; exact hb1M
  · rw [hrf]
    cases hpr : lookupPrevState B D currState m with
    | none =>
      have hmnot :
          m ∉ (b.messages.foldl (restoreActiveMessageStep A B C D) b).rejectedMessages := by
        intro hc
        have hcs := hb1R.mp hc
        rw [hpr] at hcs
        cases hcs
      rw [foldl_rejected_untouched A B C D _ _ m hmnot, hb1S, hpr]
      cases hpm : lookupPrevState A C currState m <;> rfl
    | some p =>
      have hmin :
          m ∈ (b.messages.foldl (restoreActiveMessageStep A B C D) b).rejectedMessages := by
        apply hb1R.mpr
        rw [hpr]
        rfl
      obtain ⟨pre2, post2, hsplit2⟩ := List.append_of_mem hmin
      have hnd2 : (pre2 ++ m :: post2).Nodup := hsplit2 ▸ hb1NdR
      have hd2 := List.nodup_append.mp hnd2
      have hmpre2 : m ∉ pre2 := fun hc => hd2.2.2 hc (List.mem_cons_self _ _)
      have hmpost2 : m ∉ post2 := (List.nodup_cons.mp hd2.2.1).1
      rw [hsplit2, List.foldl_append, List.foldl_cons]
      have hstp2 : getState (pre2.foldl (restoreRejectedMessageStep A B C D)
            (b.messages.foldl (restoreActiveMessageStep A B C D) b)).states m
          = some (overlayPrev currState
              ((lookupPrevState A C currState m).orElse fun _ =>
                lookupPrevState B D currState m)) :=
        (foldl_rejected_untouched A B C D pre2 _ m hmpre2).trans hb1S
      have hstep2 := restoreRejectedMessageStep_self_effect A B C D
        (pre2.foldl (restoreRejectedMessageStep A B C D)
          (b.messages.foldl (restoreActiveMessageStep A B C D) b)) m _ hstp2
      rw [lookupPrevState_overlay, lookupPrevState_overlay] at hstep2
      rw [foldl_rejected_untouched A B C D post2 _ m hmpost2, hstep2, hpr]
      exact congrArg some (overlayPrev_overlayPrev currState _ p)

end RestorationFoldLemmas

/-- C2 witness: a two-message chain whose head finalises its one incomplete task,
with no cancellation, does start the second message. -/
theorem C2_nextMessage_gating_witness :
    ((0 + 1) ∈ executeProcessOneTasks (fun _ => false) [⟨[⟨false, true⟩]⟩, ⟨[]⟩] 0) ∧
      (0 ∈ executeProcessOneTasks (fun _ => false) [⟨[⟨false, true⟩]⟩, ⟨[]⟩] 0 ∧
        (fun _ => false : Nat → Bool) 0 = false ∧
        ∃ m, [ChainedMessage.mk [⟨false, true⟩], ChainedMessage.mk []].get? 0 = some m ∧
          (incompleteTasks m).all (fun t => t.fullyFinalisedAfter) = true) :=
  ⟨by decide, C2_nextMessage_gating (fun _ => false) [⟨[⟨false, true⟩]⟩, ⟨[]⟩] 0 (by decide)⟩

/-- C4 counterexample: the current message's state matches a prior MESSAGE-map
state by BFK, yet the rejected-map match (same BFK) still causes the message to be
moved from `messages` to `rejectedMessages`, and the final task maps come from the
rejected-map state (`ones = some 2`), not from the message-map state
(`ones = some 1`) — refuting both the claimed "only if none is found there" lookup
order and the claimed final overlay. -/
theorem C4_counterexample :
    lookupPrevState
        (cachePrevStatesByBfkOrMsg [c4PrevMsgState] (allMessages c4Batch) c4Batch.states).1
        (cachePrevStatesByBfkOrMsg [c4PrevMsgState] (allMessages c4Batch) c4Batch.states).2
        c4CurrState c4Msg = some c4PrevMsgState ∧
      getState c4Batch.states c4Msg = some c4CurrState ∧
      (restoreMessageAndRejectedMessageStates c4Batch [c4PrevMsgState]
          [c4PrevRejState]).messages = [] ∧
      (restoreMessageAndRejectedMessageStates c4Batch [c4PrevMsgState]
          [c4PrevRejState]).rejectedMessages = [c4Msg] ∧
      getState (restoreMessageAndRejectedMessageStates c4Batch [c4PrevMsgState]
          [c4PrevRejState]).states c4Msg
        = some ⟨true, "X", none, none, none, ⟨some 2, none, none⟩⟩ := by
  decide

/-- C4 (amended): during restoration, for each message of the batch's `messages`
list (of a well-formed batch: duplicate-free lists, the message not already
rejected) with a tracked current state, a prior state is looked up in BOTH prior
maps (by BFK if the current state has an identifier, otherwise by content
equality); the message is moved from `messages` to `rejectedMessages` exactly when
a rejected-message-map match exists (even when a message-map match also exists);
and the final task maps `ones`, `alls` and `discards` come from the rejected-map
match when present (the moved message is restored again by the second loop, where
the rejected-map state takes precedence), else from the message-map match, else
they are left unchanged. -/
theorem C4_restoreMessageStates_policy (b : BatchR)
    (itemMessageStates itemRejectedMessageStates : List MsgStateR) (m : MsgObj)
    (hndM : b.messages.Nodup) (hndR : b.rejectedMessages.Nodup)
    (hm : m ∈ b.messages) (hnr : m ∉ b.rejectedMessages) :
    restoredMessageContract b itemMessageStates itemRejectedMessageStates m := by
  intro currState hst
  have hne : (allMessages b).isEmpty = false := by
    have hmem : m ∈ allMessages b :=
      List.mem_dedup.mpr (List.mem_append.mpr (Or.inl hm))
    cases hl : allMessages b with
    | nil => rw [hl] at hmem; cases hmem
    | cons x xs => rfl
  have hout : restoreMessageAndRejectedMessageStates b itemMessageStates
        itemRejectedMessageStates
      = restoreFolds
          (cachePrevStatesByBfkOrMsg itemMessageStates (allMessages b) b.states).1
          (cachePrevStatesByBfkOrMsg itemRejectedMessageStates (allMessages b) b.states).1
          (cachePrevStatesByBfkOrMsg itemMessageStates (allMessages b) b.states).2
          (cachePrevStatesByBfkOrMsg itemRejectedMessageStates (allMessages b) b.states).2
          b := by
    simp [restoreMessageAndRejectedMessageStates, hne]
  have h := restoreFolds_effect
      (cachePrevStatesByBfkOrMsg itemMessageStates (allMessages b) b.states).1
      (cachePrevStatesByBfkOrMsg itemRejectedMessageStates (allMessages b) b.states).1
      (cachePrevStatesByBfkOrMsg itemMessageStates (allMessages b) b.states).2
      (cachePrevStatesByBfkOrMsg itemRejectedMessageStates (allMessages b) b.states).2
      b hndM hndR m hm hnr currState hst
  rw [← hout] at h
  exact h

/-- C4 witness: the amended policy applied to the concrete one-message batch. -/
theorem C4_restoreMessageStates_policy_witness :
    c4Batch.messages.Nodup ∧ c4Batch.rejectedMessages.Nodup ∧
      c4Msg ∈ c4Batch.messages ∧ c4Msg ∉ c4Batch.rejectedMessages ∧
      restoredMessageContract c4Batch [c4PrevMsgState] [c4PrevRejState] c4Msg :=
  ⟨by decide, by decide, by decide, by decide,
    C4_restoreMessageStates_policy c4Batch [c4PrevMsgState] [c4PrevRejState] c4Msg
      (by decide) (by decide) (by decide) (by decide)⟩

end StreamConsumerCore
